import Mathlib

/-!
Pokemon battle simulator: embedding of `main.go`.

Conventions of the embedding.

* Go `int` is the 64-bit two's complement integer: every `+`, `-`, `*` wraps
  around (`wrap64`); `/` truncates toward zero and panics on a zero divisor.
  Values read from the inputs are taken to be in the range of `int`.
* Go `float64` values are the rationals they denote. Every floating-point
  operation is the exact operation followed by rounding to the nearest
  `float64`, ties to even (`f64Round`), each operation rounded on its own, as
  on amd64; subnormals are rounded on the grid `2^-1074`. Overflow to
  infinity (a result of `2^1024` or more) is not modelled; the products of
  the effectiveness factors 0, 0.5 and 2 are exact and are computed exactly.
  `int(x)` truncates toward zero and gives `-2^63` when the result is out of
  the range of `int`, as on amd64.
* A runtime panic is the result `none`.
* The default random source of `math/rand` is a stream `raw : Nat → Nat` of
  outcomes read at a cursor `k`; every call consumes one outcome.
* `map[string]int` is a total function `String → Int` (a missing key reads 0).
* `[]*Move` is a list of moves; distinct list positions are distinct objects,
  and the two combatants of a battle are distinct objects.
-/

namespace PokemonBattle

/-! ## Data model -/

/-- Go struct `Move`; the Go field `Type` is called `MoveType` here. -/
structure Move where
  Name : String
  Accuracy : Int
  Power : Int
  Pp : Int
  MoveType : String
  deriving DecidableEq, Repr

/-- Go struct `Type`. -/
structure PType where
  Name : String
  DoubleDamageFrom : List String
  DoubleDamageTo : List String
  HalfDamageFrom : List String
  HalfDamageTo : List String
  NoDamageFrom : List String
  NoDamageTo : List String
  deriving DecidableEq, Repr

/-- Go struct `Pokemon`. -/
structure Pokemon where
  Id : Int
  Name : String
  Stats : String → Int
  Types : List PType
  Moves : List Move

/-! ## Machine integers -/

/-- Wrap-around of Go's 64-bit `int`: the value congruent to `x` modulo
`2^64` that lies in `[-2^63, 2^63)`. -/
def wrap64 (x : Int) : Int :=
  (x + 9223372036854775808) % 18446744073709551616 - 9223372036854775808

/-- Go `a + b` on `int`. -/
def goAdd (a b : Int) : Int := wrap64 (a + b)

/-- Go `a - b` on `int`. -/
def goSub (a b : Int) : Int := wrap64 (a - b)

/-- Go `a * b` on `int`. -/
def goMul (a b : Int) : Int := wrap64 (a * b)

/-- Go `a / b` on `int`: panics on a zero divisor, truncates otherwise (and
wraps for `-2^63 / -1`). -/
def goDiv (a b : Int) : Option Int :=
  if b = 0 then none else some (wrap64 (Int.tdiv a b))

/-! ## Floating point -/

/-- Nearest integer, ties to the even one. -/
def roundHalfEven (y : ℚ) : Int :=
  if y - (⌊y⌋ : Int) < 1 / 2 then ⌊y⌋
  else if 1 / 2 < y - (⌊y⌋ : Int) then ⌊y⌋ + 1
  else if ⌊y⌋ % 2 = 0 then ⌊y⌋ else ⌊y⌋ + 1

/-- Exponent of the last place of the `float64` nearest to `x`: 52 below the
binary exponent of `x`, and not below `-1074`. -/
def f64Exponent (x : ℚ) : Int := max (Int.log 2 |x| - 52) (-1074)

/-- Rounding of a real result to `float64`, to nearest, ties to even. -/
def f64Round (x : ℚ) : ℚ :=
  if x = 0 then 0 else (roundHalfEven (x / 2 ^ f64Exponent x) : ℚ) * 2 ^ f64Exponent x

/-- Go `a * b` on `float64`. -/
def f64Mul (a b : ℚ) : ℚ := f64Round (a * b)

/-- Go `a + b` on `float64`. -/
def f64Add (a b : ℚ) : ℚ := f64Round (a + b)

/-- Go `float64(n)` of an `int`. -/
def f64OfInt (n : Int) : ℚ := f64Round n

/-- Go `int(x)` of a `float64`: truncation toward zero; out of the range of
`int` the result is `-2^63`. -/
def f64ToInt (x : ℚ) : Int :=
  if -9223372036854775808 ≤ Int.tdiv x.num x.den ∧ Int.tdiv x.num x.den < 9223372036854775808 then
    Int.tdiv x.num x.den
  else -9223372036854775808

/-! ## Stat scaling -/

/-- Constant `IV` of `calculateStat`. -/
def IV : Int := 31

/-- Constant `EV` of `calculateStat`. -/
def EV : Int := 252

/-- Go `calculateStat(statName, baseStat, level)`. `EV / 4` is a constant
expression; the division by the constant 100 can neither panic nor wrap. -/
def calculateStat (statName : String) (baseStat level : Int) : Int :=
  if statName = "hp" then
    goAdd (goAdd (Int.tdiv (goMul (goAdd (goAdd (goMul 2 baseStat) IV) (Int.tdiv EV 4)) level) 100)
      level) 10
  else
    goAdd (Int.tdiv (goMul (goAdd (goAdd (goMul 2 baseStat) IV) (Int.tdiv EV 4)) level) 100) 5

/-! ## Random source -/

/-- Go `rand.Intn(n)`: panics when `n` is not positive, otherwise some value
below `n`. -/
def randIntn (raw : Nat → Nat) (k n : Nat) : Option Nat :=
  if n = 0 then none else some (raw k % n)

/-- Go `rand.Float64()`: `float64(r.Int63()) / (1 << 63)`, drawn again when
the quotient is 1. The outcome is the draw that is kept: `float64(n)` is
`2^63` exactly for the draws `n ≥ 2^63 - 512`, so the kept draws are the
`n < 2^63 - 512`. The division by `2^63` is exact. -/
def randFloat64 (raw : Nat → Nat) (k : Nat) : ℚ :=
  f64OfInt ((raw k % 9223372036854775296 : Nat) : Int) / 9223372036854775808

/-! ## Loadout selection -/

/-- The swap callback passed to `rand.Shuffle` in `selectRandomMoves`:
`possibleMoves[i], possibleMoves[j] = possibleMoves[j], possibleMoves[i]`. -/
def swapAt {α : Type} (l : List α) (i j : Nat) : List α :=
  match l[i]?, l[j]? with
  | some a, some b => (l.set i b).set j a
  | _, _ => l

/-- The loop of Go's `rand.Shuffle(n, swap)`, a Fisher-Yates shuffle:
`for i := n - 1; i > 0; i-- { j := Intn(i + 1); swap(i, j) }`.
The first argument is the current `i`. -/
def shuffleLoop {α : Type} (raw : Nat → Nat) : Nat → List α → Nat → List α × Nat
  | 0, l, k => (l, k)
  | i + 1, l, k => shuffleLoop raw i (swapAt l (i + 1) (raw k % (i + 2))) (k + 1)

/-- Go `rand.Shuffle(len(l), swap)` with the swap callback `swapAt`. -/
def shuffle {α : Type} (raw : Nat → Nat) (l : List α) (k : Nat) : List α × Nat :=
  shuffleLoop raw (l.length - 1) l k

/-- Go `selectRandomMoves(possibleMoves, count)`; returns the selected moves
and the cursor of the random source after the call. -/
def selectRandomMoves (possibleMoves : List Move) (count : Nat) (raw : Nat → Nat) (k : Nat) :
    List Move × Nat :=
  if possibleMoves.length ≤ count then
    (possibleMoves, k)
  else
    let shuffled := shuffle raw possibleMoves k
    (shuffled.1.take count, shuffled.2)

/-! ## Damage -/

/-- The STAB loop of `calculateModifier`: the first attacker type whose name
is the move's type multiplies the modifier by 1.5 and ends the loop. -/
def applyStab (moveType : String) : List PType → ℚ → ℚ
  | [], modifier => modifier
  | t :: ts, modifier =>
    if t.Name = moveType then f64Mul modifier (3 / 2) else applyStab moveType ts modifier

/-- One inner loop of `calculateModifier` over a relation list: every entry
equal to the move's type multiplies the effectiveness by `factor`. -/
def applyRelation (moveType : String) (factor : ℚ) (names : List String) (effectiveness : ℚ) : ℚ :=
  names.foldl (fun e t2 => if t2 = moveType then e * factor else e) effectiveness

/-- The outer loop over `defender.Types` of `calculateModifier`, started from
the current value of `effectiveness`. -/
def effectivenessLoop (moveType : String) (types : List PType) (effectiveness : ℚ) : ℚ :=
  types.foldl
    (fun e t =>
      applyRelation moveType 2 t.DoubleDamageFrom
        (applyRelation moveType (1 / 2) t.HalfDamageFrom
          (applyRelation moveType 0 t.NoDamageFrom e)))
    effectiveness

/-- The value of the local `effectiveness` of `calculateModifier` after the
loop over the defender's types. -/
def typeEffectiveness (moveType : String) (types : List PType) : ℚ :=
  effectivenessLoop moveType types 1

/-- The constant `1.0/24.0` of `calculateModifier` as a `float64`. -/
def critChance : ℚ := f64Round (1 / 24)

/-- The constant `0.15` of `calculateModifier` as a `float64`. -/
def varianceScale : ℚ := f64Round (15 / 100)

/-- The constant `0.85` of `calculateModifier` as a `float64`. -/
def varianceBase : ℚ := f64Round (85 / 100)

/-- The factor `rand.Float64()*0.15 + 0.85` of `calculateModifier`. -/
def varianceRoll (raw : Nat → Nat) (k : Nat) : ℚ :=
  f64Add (f64Mul (randFloat64 raw k) varianceScale) varianceBase

/-- Go `calculateModifier(attacker, move, defender)`; consumes two outcomes of
the random source (critical-hit roll, variance roll). -/
def calculateModifier (attacker : Pokemon) (move : Move) (defender : Pokemon)
    (raw : Nat → Nat) (k : Nat) : ℚ × Nat :=
  let modifier := applyStab move.MoveType attacker.Types 1
  let effectiveness := typeEffectiveness move.MoveType defender.Types
  let modifier := f64Mul modifier effectiveness
  let modifier := if randFloat64 raw k < critChance then f64Mul modifier 2 else modifier
  let modifier := f64Mul modifier (varianceRoll raw (k + 1))
  (modifier, k + 2)

/-- The attack stat read by `calculateDamage`. -/
def attackStat (attacker : Pokemon) (move : Move) : Int :=
  if move.MoveType = "special" then attacker.Stats "special-attack" else attacker.Stats "attack"

/-- The defense stat read by `calculateDamage`. -/
def defenseStat (move : Move) (defender : Pokemon) : Int :=
  if move.MoveType = "special" then defender.Stats "special-defense" else defender.Stats "defense"

/-- The local `damage` of `calculateDamage` before the modifier is applied:
`(((2*level/5)+2)*power*attack/defense)/50 + 2` with `level := 100`. -/
def baseDamage (power attack defense : Int) : Option Int :=
  let level : Int := 100
  match goDiv (goMul (goMul (goAdd (Int.tdiv (goMul 2 level) 5) 2) power) attack) defense with
  | none => none
  | some q => some (goAdd (Int.tdiv q 50) 2)

/-- Go `calculateDamage(attacker, move, defender)`: the base damage, converted
to `float64`, times the modifier, converted back to `int`. -/
def calculateDamage (attacker : Pokemon) (move : Move) (defender : Pokemon)
    (raw : Nat → Nat) (k : Nat) : Option (Int × Nat) :=
  let power := move.Power
  let attack := attackStat attacker move
  let defense := defenseStat move defender
  let mk := calculateModifier attacker move defender raw k
  match baseDamage power attack defense with
  | none => none
  | some damage => some (f64ToInt (f64Mul (f64OfInt damage) mk.1), mk.2)

/-! ## A turn -/

/-- Outcome of the move-selection loop of `Pokemon.Attack`. -/
inductive Selection where
  | panicked : Selection
  | forfeited (k : Nat) : Selection
  | chosen (idx : Nat) (k : Nat) : Selection
  deriving DecidableEq, Repr

/-- The `for` loop at the head of `Pokemon.Attack`. `i` is the loop counter
before `i++`, `k` the cursor of the random source. -/
def selectLoop (moves : List Move) (raw : Nat → Nat) (i k : Nat) : Selection :=
  let i := i + 1
  match randIntn raw k moves.length with
  | none => Selection.panicked
  | some idx =>
    match moves[idx]? with
    | none => Selection.panicked
    | some move =>
      if move.Pp > 0 then Selection.chosen idx (k + 1)
      else if i > 10 then Selection.forfeited (k + 1)
      else selectLoop moves raw i (k + 1)
termination_by 11 - i
decreasing_by omega

/-- The statement `enemy.Stats["hp"] -= damage`. -/
def takeDamage (enemy : Pokemon) (damage : Int) : Pokemon :=
  { enemy with
    Stats := fun s => if s = "hp" then goSub (enemy.Stats "hp") damage else enemy.Stats s }

/-- The statement `move.Pp--` on the move at position `idx` of the loadout
(it is reached with `move.Pp > 0` only, where the decrement cannot wrap). -/
def usePp (p : Pokemon) (idx : Nat) (move : Move) : Pokemon :=
  { p with Moves := p.Moves.set idx { move with Pp := move.Pp - 1 } }

/-- Go `(p *Pokemon) Attack(enemy *Pokemon)`: the attacker, the enemy and the
cursor of the random source after the call, or `none` on a panic. -/
def Attack (p enemy : Pokemon) (raw : Nat → Nat) (k : Nat) : Option (Pokemon × Pokemon × Nat) :=
  match selectLoop p.Moves raw 0 k with
  | Selection.panicked => none
  | Selection.forfeited k1 => some (p, enemy, k1)
  | Selection.chosen idx k1 =>
    match p.Moves[idx]? with
    | none => none
    | some move =>
      let p1 := usePp p idx move
      match calculateDamage p1 { move with Pp := move.Pp - 1 } enemy raw k1 with
      | none => none
      | some (damage, k2) =>
        let damage := if damage < 0 then 0 else damage
        some (p1, takeDamage enemy damage, k2)

/-! ## The battle loop of `main` -/

/-- How a run of the battle loop ended. -/
inductive BattleStatus where
  | exited : BattleStatus
  | crashed : BattleStatus
  | running : BattleStatus
  deriving DecidableEq, Repr

/-- One call of `Attack` made by the battle loop. -/
structure Turn where
  firstAttacks : Bool
  attackerBefore : Pokemon
  defenderBefore : Pokemon
  attackerAfter : Pokemon
  defenderAfter : Pokemon

/-- State of the battle when the run stops, with the calls of `Attack` made. -/
structure BattleRun where
  status : BattleStatus
  pokemon1 : Pokemon
  pokemon2 : Pokemon
  cursor : Nat
  turns : List Turn

/-- The loop `for pokemon1.Stats["hp"] > 0 && pokemon2.Stats["hp"] > 0 { ... }`
of `main`, run for at most `fuel` iterations. -/
def battleLoop (raw : Nat → Nat) : Nat → Pokemon → Pokemon → Nat → BattleRun
  | 0, pokemon1, pokemon2, k => ⟨BattleStatus.running, pokemon1, pokemon2, k, []⟩
  | fuel + 1, pokemon1, pokemon2, k =>
    if pokemon1.Stats "hp" > 0 ∧ pokemon2.Stats "hp" > 0 then
      match Attack pokemon1 pokemon2 raw k with
      | none => ⟨BattleStatus.crashed, pokemon1, pokemon2, k, []⟩
      | some (a1, d2, k1) =>
        let t1 : Turn := ⟨true, pokemon1, pokemon2, a1, d2⟩
        if d2.Stats "hp" ≤ 0 then
          ⟨BattleStatus.exited, a1, d2, k1, [t1]⟩
        else
          match Attack d2 a1 raw k1 with
          | none => ⟨BattleStatus.crashed, a1, d2, k1, [t1]⟩
          | some (a2, d1, k2) =>
            let t2 : Turn := ⟨false, d2, a1, a2, d1⟩
            let rest := battleLoop raw fuel d1 a2 k2
            { rest with turns := t1 :: t2 :: rest.turns }
    else
      ⟨BattleStatus.exited, pokemon1, pokemon2, k, []⟩

/-- The winner announced by `main` after the loop: 1 when
`pokemon1.Stats["hp"] > 0`, otherwise 2. -/
def announcedWinner (pokemon1 _pokemon2 : Pokemon) : Nat :=
  if pokemon1.Stats "hp" > 0 then 1 else 2

/-! ## Invariants and sample inputs -/

/-- No move of the loadout has a negative number of remaining uses. -/
def ppNonneg (p : Pokemon) : Prop := ∀ m ∈ p.Moves, 0 ≤ m.Pp

/-- A move with remaining uses. -/
def tackle : Move := ⟨"tackle", 100, 40, 35, "normal"⟩

/-- A move with no remaining uses. -/
def spentMove : Move := ⟨"growl", 100, 40, 0, "normal"⟩

/-- Stats of the sample combatants: every stat, health included, is 100. -/
def sampleStats : String → Int := fun _ => 100

/-- A sample combatant with the given loadout and no types. -/
def fighter (moves : List Move) : Pokemon := ⟨1, "sample", sampleStats, [], moves⟩

/-! ## Type effectiveness as a product -/

/-- The factor one defender type contributes, in the words of the claim: 0
when the move's type is in its no-damage-from list, times 1/2 when it is in
its half-damage-from list, times 2 when it is in its double-damage-from list. -/
def relationFactor (moveType : String) (t : PType) : ℚ :=
  (if moveType ∈ t.NoDamageFrom then 0 else 1)
    * (if moveType ∈ t.HalfDamageFrom then 1 / 2 else 1)
    * (if moveType ∈ t.DoubleDamageFrom then 2 else 1)

/-- The product of the factors of all defender types. -/
def effectivenessProduct (moveType : String) (types : List PType) : ℚ :=
  (types.map (relationFactor moveType)).prod

/-- Relation lists of a type hold no name twice. -/
def relationsNodup (t : PType) : Prop :=
  t.NoDamageFrom.Nodup ∧ t.HalfDamageFrom.Nodup ∧ t.DoubleDamageFrom.Nodup

instance relationsNodupDecidable (t : PType) : Decidable (relationsNodup t) := by
  unfold relationsNodup
  infer_instance

/-- Five candidate moves. -/
def fiveMoves : List Move :=
  [⟨"a", 100, 40, 35, "normal"⟩, ⟨"b", 100, 50, 25, "fire"⟩, ⟨"c", 95, 60, 20, "water"⟩,
   ⟨"d", 90, 70, 15, "grass"⟩, ⟨"e", 85, 80, 10, "ice"⟩]

/-! ## Sample inputs for the damage computation -/

/-- A sample combatant with the given attack, defense and hp (every other
stat reads as the defense), types and loadout. -/
def combatant (attack defense hp : Int) (types : List PType) (moves : List Move) : Pokemon :=
  ⟨1, "sample", fun s => if s = "hp" then hp else if s = "attack" then attack else defense,
    types, moves⟩

/-- A move of power `2^31`. -/
def heavyMove : Move := ⟨"heavy", 100, 2147483648, 35, "normal"⟩

/-- A move of power `2^28`. -/
def bigMove : Move := ⟨"big", 100, 268435456, 35, "normal"⟩

/-- A move of power 141. -/
def move141 : Move := ⟨"slam", 100, 141, 35, "normal"⟩

/-- A type that takes double damage from "normal". -/
def weakType : PType := ⟨"weak", ["normal"], [], [], [], [], []⟩

/-- The random source whose every outcome is `2^62`: every `rand.Float64()`
is 0.5. -/
def rawHalf : Nat → Nat := fun _ => 4611686018427387904

/-- The random source whose every outcome is 0. -/
def rawZero : Nat → Nat := fun _ => 0

/-! ## Properties of the battle trace -/

/-- What a call of `Attack` may change. The attacker keeps its stats (so its
hp), types, name and id, and its loadout is unchanged or differs at one
position, where a move with `Pp > 0` has `Pp` lowered by 1. The defender keeps
its moves, types, name, id and every stat other than hp. -/
def attackFrame (p enemy p1 e1 : Pokemon) : Prop :=
  p1.Stats = p.Stats ∧ p1.Types = p.Types ∧ p1.Name = p.Name ∧ p1.Id = p.Id ∧
  (p1.Moves = p.Moves ∨
    ∃ idx move, p.Moves[idx]? = some move ∧ 0 < move.Pp ∧
      p1.Moves = p.Moves.set idx { move with Pp := move.Pp - 1 }) ∧
  e1.Moves = enemy.Moves ∧ e1.Types = enemy.Types ∧ e1.Name = enemy.Name ∧ e1.Id = enemy.Id ∧
  (∀ s, s ≠ "hp" → e1.Stats s = enemy.Stats s)

/-- The turns form one chain of strictly alternating attacks: the first is
made by `attacker` on `defender`, by pokemon1 exactly when `first` is true,
and each later turn is made by the previous defender, as it was left, on the
previous attacker, as it was left. -/
def alternates : Pokemon → Pokemon → Bool → List Turn → Prop
  | _, _, _, [] => True
  | attacker, defender, first, t :: ts =>
    t.firstAttacks = first ∧ t.attackerBefore = attacker ∧ t.defenderBefore = defender ∧
    alternates t.defenderAfter t.attackerAfter (!first) ts

/-! ## Machine integers: theorems -/

theorem wrap64_eq_self (x : Int) (h1 : -9223372036854775808 ≤ x) (h2 : x < 9223372036854775808) :
    wrap64 x = x := by
  unfold wrap64
  omega

theorem wrap64_range (x : Int) :
    -9223372036854775808 ≤ wrap64 x ∧ wrap64 x < 9223372036854775808 := by
  unfold wrap64
  omega

theorem wrap64_mul_left (a b : Int) : wrap64 (wrap64 a * b) = wrap64 (a * b) := by
  have h : ∃ t : Int, wrap64 a = a + t * 18446744073709551616 :=
    ⟨-((a + 9223372036854775808) / 18446744073709551616), by unfold wrap64; omega⟩
  obtain ⟨t, ht⟩ := h
  rw [ht]
  unfold wrap64
  have e : (a + t * 18446744073709551616) * b + 9223372036854775808
      = a * b + 9223372036854775808 + (t * b) * 18446744073709551616 := by ring
  rw [e, Int.add_mul_emod_self]

/-! ## Floating point: theorems -/

theorem roundHalfEven_cases (y : ℚ) : roundHalfEven y = ⌊y⌋ ∨ (roundHalfEven y = ⌊y⌋ + 1 ∧ (⌊y⌋ : ℚ) < y) := by
  unfold roundHalfEven
  have h0 := Int.floor_le y
  split
  · left; rfl
  · next h1 =>
    have : (⌊y⌋ : ℚ) < y := by linarith
    split
    · right; exact ⟨rfl, this⟩
    · split
      · left; rfl
      · right; exact ⟨rfl, this⟩

theorem roundHalfEven_le (y : ℚ) (n : Int) (h : y ≤ n) : roundHalfEven y ≤ n := by
  have hf : ⌊y⌋ ≤ n := by
    have := Int.floor_le y
    exact_mod_cast (le_trans this h : ((⌊y⌋ : Int) : ℚ) ≤ n)
  rcases roundHalfEven_cases y with h1 | ⟨h1, h2⟩
  · rw [h1]; exact hf
  · rw [h1]
    have : ((⌊y⌋ : Int) : ℚ) < n := lt_of_lt_of_le h2 h
    have : ⌊y⌋ < n := by exact_mod_cast this
    omega

theorem le_roundHalfEven (y : ℚ) (n : Int) (h : (n : ℚ) ≤ y) : n ≤ roundHalfEven y := by
  have hf : n ≤ ⌊y⌋ := Int.le_floor.mpr h
  rcases roundHalfEven_cases y with h1 | ⟨h1, _⟩ <;> rw [h1] <;> omega

theorem roundHalfEven_eq (y : ℚ) (n : Int) (h : |y - n| < 1 / 2) : roundHalfEven y = n := by
  rw [abs_lt] at h
  obtain ⟨h1, h2⟩ := h
  have hfl := Int.floor_le y
  have hlt := Int.lt_floor_add_one y
  have ha : n - 1 ≤ ⌊y⌋ := by
    apply Int.le_floor.mpr
    push_cast
    linarith
  have hb : ⌊y⌋ ≤ n := by
    have : ((⌊y⌋ : Int) : ℚ) < n + 1 := by linarith
    have : ⌊y⌋ < n + 1 := by exact_mod_cast this
    omega
  unfold roundHalfEven
  by_cases hc : ⌊y⌋ = n
  · rw [if_pos (by rw [hc]; linarith), hc]
  · have hd : ⌊y⌋ = n - 1 := by omega
    have hq : ((⌊y⌋ : Int) : ℚ) = n - 1 := by rw [hd]; push_cast; rfl
    rw [if_neg (by rw [hq]; linarith), if_pos (by rw [hq]; linarith), hd]
    omega

theorem f64Round_nonneg (x : ℚ) (hx : 0 ≤ x) : 0 ≤ f64Round x := by
  unfold f64Round
  split
  · exact le_refl 0
  · have hp : (0 : ℚ) < 2 ^ f64Exponent x := by positivity
    have hy : ((0 : Int) : ℚ) ≤ x / 2 ^ f64Exponent x := by
      push_cast
      exact div_nonneg hx hp.le
    have := le_roundHalfEven _ 0 hy
    have h2 : (0 : ℚ) ≤ (roundHalfEven (x / 2 ^ f64Exponent x) : ℚ) := by exact_mod_cast this
    exact mul_nonneg h2 hp.le

theorem f64Round_nonpos (x : ℚ) (hx : x ≤ 0) : f64Round x ≤ 0 := by
  unfold f64Round
  split
  · exact le_refl 0
  · have hp : (0 : ℚ) < 2 ^ f64Exponent x := by positivity
    have hy : x / 2 ^ f64Exponent x ≤ ((0 : Int) : ℚ) := by
      push_cast
      exact div_nonpos_of_nonpos_of_nonneg hx hp.le
    have := roundHalfEven_le _ 0 hy
    have h2 : (roundHalfEven (x / 2 ^ f64Exponent x) : ℚ) ≤ 0 := by exact_mod_cast this
    exact mul_nonpos_of_nonpos_of_nonneg h2 hp.le

/-- Rounding does not pass a representable bound `m * 2^j`. -/
theorem f64Round_le (x : ℚ) (m : Nat) (j : Int) (hm : m < 2 ^ 53) (hj : -1074 ≤ j)
    (h : x ≤ (m : ℚ) * 2 ^ j) : f64Round x ≤ (m : ℚ) * 2 ^ j := by
  have hB : (0 : ℚ) ≤ (m : ℚ) * 2 ^ j := by positivity
  rcases le_or_lt x 0 with hx | hx
  · exact le_trans (f64Round_nonpos x hx) hB
  · have hne : x ≠ 0 := ne_of_gt hx
    have habs : |x| = x := abs_of_pos hx
    -- the exponent is at most j
    have hej : f64Exponent x ≤ j := by
      unfold f64Exponent
      apply max_le _ hj
      rw [habs]
      have h1 : (2 : ℚ) ^ Int.log 2 x ≤ x := by
        have := Int.zpow_log_le_self (b := 2) (r := x) (by norm_num) hx
        exact_mod_cast this
      have h2 : (m : ℚ) < 2 ^ (53 : Int) := by
        rw [show (53 : Int) = ((53 : Nat) : Int) from rfl, zpow_natCast]
        exact_mod_cast hm
      have hjpos : (0 : ℚ) < 2 ^ j := by positivity
      have h3 : (2 : ℚ) ^ Int.log 2 x < 2 ^ (53 + j) := by
        calc (2 : ℚ) ^ Int.log 2 x ≤ x := h1
          _ ≤ (m : ℚ) * 2 ^ j := h
          _ < 2 ^ (53 : Int) * 2 ^ j := by
            exact mul_lt_mul_of_pos_right h2 hjpos
          _ = 2 ^ (53 + j) := by rw [zpow_add₀ (by norm_num)]
      have h4 : Int.log 2 x < 53 + j := (zpow_lt_zpow_iff_right₀ (by norm_num : (1 : ℚ) < 2)).mp h3
      omega
    unfold f64Round
    rw [if_neg hne]
    set e := f64Exponent x with he
    have hp : (0 : ℚ) < 2 ^ e := by positivity
    -- the bound divided by 2^e is an integer
    have hk : (0 : Int) ≤ j - e := by omega
    have hbint : (m : ℚ) * 2 ^ j = ((m * 2 ^ (j - e).toNat : Nat) : ℚ) * 2 ^ e := by
      have hje : j = ((j - e).toNat : Int) + e := by
        rw [Int.toNat_of_nonneg hk]; ring
      conv_lhs => rw [hje, zpow_add₀ (by norm_num : (2 : ℚ) ≠ 0), zpow_natCast]
      push_cast
      ring
    rw [hbint]
    apply mul_le_mul_of_nonneg_right _ hp.le
    have hy : x / 2 ^ e ≤ (((m * 2 ^ (j - e).toNat : Nat) : Int) : ℚ) := by
      rw [div_le_iff₀ hp]
      rw [hbint] at h
      exact_mod_cast h
    have := roundHalfEven_le _ _ hy
    exact_mod_cast this

theorem f64Exponent_eq (x : ℚ) (e : Int) (he : -1074 ≤ e) (hx : x ≠ 0)
    (h1 : (2 : ℚ) ^ (e + 52) ≤ |x|) (h2 : |x| < (2 : ℚ) ^ (e + 53)) : f64Exponent x = e := by
  have hpos : 0 < |x| := abs_pos.mpr hx
  have a1 : e + 52 ≤ Int.log 2 |x| := by
    apply (Int.zpow_le_iff_le_log (b := 2) (by norm_num) hpos).mp
    exact_mod_cast h1
  have a2 : Int.log 2 |x| < e + 53 := by
    apply (Int.lt_zpow_iff_log_lt (b := 2) (by norm_num) hpos).mp
    exact_mod_cast h2
  unfold f64Exponent
  rw [max_eq_left (by omega)]
  omega

/-- Evaluation of a rounding in the normal range: with `2^(e+52) ≤ |x| < 2^(e+53)`
the result is the integer nearest to `x / 2^e`, times `2^e`. -/
theorem f64Round_eval (x : ℚ) (e n : Int) (he : -1074 ≤ e) (hx : x ≠ 0)
    (h1 : (2 : ℚ) ^ (e + 52) ≤ |x|) (h2 : |x| < (2 : ℚ) ^ (e + 53))
    (hn : |x / 2 ^ e - n| < 1 / 2) : f64Round x = (n : ℚ) * 2 ^ e := by
  unfold f64Round
  rw [if_neg hx, f64Exponent_eq x e he hx h1 h2, roundHalfEven_eq _ n hn]

theorem f64Round_eval_pos (x : ℚ) (e n : Int) (he : -1074 ≤ e)
    (h1 : (2 : ℚ) ^ (e + 52) ≤ x) (h2 : x < (2 : ℚ) ^ (e + 53))
    (hlo : (n : ℚ) - 1 / 2 < x / 2 ^ e) (hhi : x / 2 ^ e < (n : ℚ) + 1 / 2) :
    f64Round x = (n : ℚ) * 2 ^ e := by
  have hpos : 0 < x := lt_of_lt_of_le (by positivity) h1
  have habs : |x| = x := abs_of_pos hpos
  exact f64Round_eval x e n he (ne_of_gt hpos) (by rw [habs]; exact h1) (by rw [habs]; exact h2)
    (by rw [abs_lt]; constructor <;> linarith)

theorem f64Round_eval_neg (x : ℚ) (e n : Int) (he : -1074 ≤ e)
    (h1 : (2 : ℚ) ^ (e + 52) ≤ -x) (h2 : -x < (2 : ℚ) ^ (e + 53))
    (hlo : (n : ℚ) - 1 / 2 < x / 2 ^ e) (hhi : x / 2 ^ e < (n : ℚ) + 1 / 2) :
    f64Round x = (n : ℚ) * 2 ^ e := by
  have hpos : 0 < -x := lt_of_lt_of_le (by positivity) h1
  have hneg : x < 0 := by linarith
  have habs : |x| = -x := abs_of_neg hneg
  exact f64Round_eval x e n he (ne_of_lt hneg) (by rw [habs]; exact h1) (by rw [habs]; exact h2)
    (by rw [abs_lt]; constructor <;> linarith)

/-- Rounding does not pass a bound that is a `float64`. -/
theorem f64Round_le_of (x b : ℚ) (m : Nat) (j : Int) (hm : m < 2 ^ 53) (hj : -1074 ≤ j)
    (hb : (m : ℚ) * 2 ^ j = b) (h : x ≤ b) : f64Round x ≤ b := by
  subst hb
  exact f64Round_le x m j hm hj h

/-! ## Stat scaling: theorems -/

/-- Without overflow, `calculateStat` is the formula with floor division. -/
theorem calculateStat_nonneg_eq (statName : String) (B L : Int) (hB : 0 ≤ B) (hL : 0 ≤ L)
    (hbound : (2 * B + 94) * L < 9223372036854775808) :
    calculateStat statName B L
      = ((2 * B + 94) * L) / 100 + (if statName = "hp" then L + 10 else 5) := by
  have h63 : Int.tdiv EV 4 = 63 := by decide
  have hP : (0 : Int) ≤ (2 * B + 94) * L := by positivity
  rcases Int.lt_or_le L 1 with h0 | h1
  · have hz : L = 0 := by omega
    subst hz
    unfold calculateStat goAdd goMul
    simp only [mul_zero, h63]
    have w0 : wrap64 0 = 0 := by decide
    rw [w0]
    split <;> simp [wrap64]
  · have h94 : 2 * B + 94 ≤ (2 * B + 94) * L := by nlinarith
    have hL94 : 94 * L ≤ (2 * B + 94) * L := by nlinarith
    have e1 : goMul 2 B = 2 * B := wrap64_eq_self _ (by omega) (by omega)
    have e2 : goAdd (2 * B) IV = 2 * B + 31 := wrap64_eq_self _ (by simp [IV]; omega) (by simp [IV]; omega)
    have e3 : goAdd (2 * B + 31) 63 = 2 * B + 94 := by
      have : 2 * B + 31 + 63 = 2 * B + 94 := by ring
      unfold goAdd
      rw [this]
      exact wrap64_eq_self _ (by omega) (by omega)
    have e4 : goMul (2 * B + 94) L = (2 * B + 94) * L := wrap64_eq_self _ (by omega) hbound
    have e5 : Int.tdiv ((2 * B + 94) * L) 100 = (2 * B + 94) * L / 100 :=
      Int.tdiv_eq_ediv hP (by decide)
    unfold calculateStat
    rw [h63, e1, e2, e3, e4, e5]
    generalize (2 * B + 94) * L = P at *
    split
    · have a1 : goAdd (P / 100) L = P / 100 + L := wrap64_eq_self _ (by omega) (by omega)
      rw [a1]
      have a2 : goAdd (P / 100 + L) 10 = P / 100 + L + 10 := wrap64_eq_self _ (by omega) (by omega)
      rw [a2]
      ring
    · exact wrap64_eq_self _ (by omega) (by omega)

/-- C1 (as stated, refuted): at base stat `2^62` and level 100, both `≥ 0`,
the product `2 * baseStat` wraps around and `calculateStat` returns 204 for
"hp", not the value `9223372036854776012` of the formula. -/
theorem calculateStat_overflow_refuted :
    calculateStat "hp" 4611686018427387904 100 = 204 ∧
    ⌊((2 * ((4611686018427387904 : Int) : ℚ) + 31 + ((⌊(252 : ℚ) / 4⌋ : Int) : ℚ))
        * ((100 : Int) : ℚ)) / 100⌋ + ((100 : Int) + 10) = 9223372036854776012 ∧
    calculateStat "hp" 4611686018427387904 100
      ≠ ⌊((2 * ((4611686018427387904 : Int) : ℚ) + 31 + ((⌊(252 : ℚ) / 4⌋ : Int) : ℚ))
        * ((100 : Int) : ℚ)) / 100⌋ + ((100 : Int) + 10) := by
  have hfl : ⌊(252 : ℚ) / 4⌋ = 63 := by
    rw [Int.floor_eq_iff]; norm_num
  have hv : ⌊((2 * ((4611686018427387904 : Int) : ℚ) + 31 + ((63 : Int) : ℚ))
      * ((100 : Int) : ℚ)) / 100⌋ = 9223372036854775902 := by
    rw [Int.floor_eq_iff]; norm_num
  have hc : calculateStat "hp" 4611686018427387904 100 = 204 := by decide
  rw [hfl, hv, hc]
  decide

/-- C1 (amended): for every base stat `B ≥ 0` and level `L ≥ 0` for which
`(2*B + 94) * L < 2^63` (no 64-bit overflow), `calculateStat name B L` is
`floor((2*B + 31 + floor(252/4)) * L / 100) + bonus`, with `bonus = L + 10`
for the stat name "hp" and `bonus = 5` for every other name. -/
theorem calculateStat_formula (statName : String) (B L : Int) (hB : 0 ≤ B) (hL : 0 ≤ L)
    (hbound : (2 * B + 94) * L < 9223372036854775808) :
    calculateStat statName B L
      = ⌊((2 * (B : ℚ) + 31 + ((⌊(252 : ℚ) / 4⌋ : Int) : ℚ)) * (L : ℚ)) / 100⌋
        + (if statName = "hp" then L + 10 else 5) := by
  have hfl : ⌊(252 : ℚ) / 4⌋ = 63 := by
    rw [Int.floor_eq_iff]; norm_num
  have hcast : ((2 * (B : ℚ) + 31 + ((63 : Int) : ℚ)) * (L : ℚ)) / 100
      = (((2 * B + 94) * L : Int) : ℚ) / ((100 : Nat) : ℚ) := by
    push_cast; ring
  rw [calculateStat_nonneg_eq statName B L hB hL hbound, hfl, hcast,
    Rat.floor_intCast_div_natCast]
  rfl

/-- Witness of `calculateStat_formula` at base stat 45, level 100, stat "hp". -/
theorem calculateStat_formula_witness :
    calculateStat "hp" 45 100
      = ⌊((2 * ((45 : Int) : ℚ) + 31 + ((⌊(252 : ℚ) / 4⌋ : Int) : ℚ)) * ((100 : Int) : ℚ)) / 100⌋
        + (if "hp" = "hp" then (100 : Int) + 10 else 5) :=
  calculateStat_formula "hp" 45 100 (by decide) (by decide) (by decide)

/-- C2 (as stated, refuted): at base stat 100 and level 100 the health stat is
404, not 361, and a non-health stat is 299, not 256. -/
theorem calculateStat_golden_refuted :
    calculateStat "hp" 100 100 = 404 ∧ calculateStat "hp" 100 100 ≠ 361 ∧
    calculateStat "attack" 100 100 = 299 ∧ calculateStat "attack" 100 100 ≠ 256 := by
  decide

/-- C2 (amended): at base stat 100 and level 100, `calculateStat` returns 404
for the stat name "hp" and 299 for every other stat name. -/
theorem calculateStat_golden (statName : String) :
    calculateStat "hp" 100 100 = 404 ∧ (statName ≠ "hp" → calculateStat statName 100 100 = 299) := by
  refine ⟨by decide, fun h => ?_⟩
  unfold calculateStat
  rw [if_neg h]
  decide

/-- Witness of `calculateStat_golden` at the stat name "speed". -/
theorem calculateStat_golden_witness :
    calculateStat "hp" 100 100 = 404 ∧ calculateStat "speed" 100 100 = 299 :=
  ⟨(calculateStat_golden "speed").1, (calculateStat_golden "speed").2 (by decide)⟩

/-! ## A turn: theorems -/

theorem randIntn_of_ne_nil (moves : List Move) (raw : Nat → Nat) (k : Nat) (hne : moves ≠ []) :
    randIntn raw k moves.length = some (raw k % moves.length) ∧
    raw k % moves.length < moves.length := by
  have hpos : 0 < moves.length := List.length_pos.mpr hne
  refine ⟨?_, Nat.mod_lt _ hpos⟩
  unfold randIntn
  rw [if_neg (by omega)]

/-- One unfolding of the selection loop on a non-empty loadout. -/
theorem selectLoop_step (moves : List Move) (raw : Nat → Nat) (i k : Nat) (hne : moves ≠ []) :
    ∃ move, moves[raw k % moves.length]? = some move ∧
      selectLoop moves raw i k =
        if move.Pp > 0 then Selection.chosen (raw k % moves.length) (k + 1)
        else if i + 1 > 10 then Selection.forfeited (k + 1)
        else selectLoop moves raw (i + 1) (k + 1) := by
  obtain ⟨h1, h2⟩ := randIntn_of_ne_nil moves raw k hne
  refine ⟨moves[raw k % moves.length], List.getElem?_eq_getElem h2, ?_⟩
  rw [selectLoop]
  simp only [h1, List.getElem?_eq_getElem h2]

theorem selectLoop_nil (raw : Nat → Nat) (i k : Nat) :
    selectLoop [] raw i k = Selection.panicked := by
  rw [selectLoop]
  simp [randIntn]

/-- With every move exhausted, the loop entered with counter `i ≤ 10` gives up
after `11 - i` further draws. -/
theorem selectLoop_exhausted (moves : List Move) (raw : Nat → Nat) (hne : moves ≠ [])
    (h0 : ∀ m ∈ moves, m.Pp = 0) :
    ∀ (n i k : Nat), i + n = 10 → selectLoop moves raw i k = Selection.forfeited (k + n + 1) := by
  intro n
  induction n with
  | zero =>
    intro i k hi
    obtain ⟨move, hm, hstep⟩ := selectLoop_step moves raw i k hne
    have hpp : move.Pp = 0 := h0 move (List.getElem?_mem hm)
    rw [hstep, if_neg (by omega), if_pos (by omega)]
  | succ n ih =>
    intro i k hi
    obtain ⟨move, hm, hstep⟩ := selectLoop_step moves raw i k hne
    have hpp : move.Pp = 0 := h0 move (List.getElem?_mem hm)
    rw [hstep, if_neg (by omega), if_neg (by omega), ih (i + 1) (k + 1) (by omega)]
    congr 1
    omega

/-- What the selection loop can return. -/
theorem selectLoop_cases (moves : List Move) (raw : Nat → Nat) (hne : moves ≠ []) :
    ∀ (n i k : Nat), i + n = 10 →
      (∃ k1, selectLoop moves raw i k = Selection.forfeited k1) ∨
      (∃ idx k1 move, selectLoop moves raw i k = Selection.chosen idx k1 ∧
        moves[idx]? = some move ∧ 0 < move.Pp) := by
  intro n
  induction n with
  | zero =>
    intro i k hi
    obtain ⟨move, hm, hstep⟩ := selectLoop_step moves raw i k hne
    by_cases hpp : move.Pp > 0
    · right
      exact ⟨_, _, move, by rw [hstep, if_pos hpp], hm, hpp⟩
    · left
      exact ⟨k + 1, by rw [hstep, if_neg hpp, if_pos (by omega)]⟩
  | succ n ih =>
    intro i k hi
    obtain ⟨move, hm, hstep⟩ := selectLoop_step moves raw i k hne
    by_cases hpp : move.Pp > 0
    · right
      exact ⟨_, _, move, by rw [hstep, if_pos hpp], hm, hpp⟩
    · rw [hstep, if_neg hpp, if_neg (by omega)]
      exact ih (i + 1) (k + 1) (by omega)

theorem baseDamage_isSome (power attack defense : Int) (hd : defense ≠ 0) :
    ∃ d, baseDamage power attack defense = some d := by
  unfold baseDamage goDiv
  simp [hd]

theorem calculateDamage_isSome (attacker : Pokemon) (move : Move) (defender : Pokemon)
    (raw : Nat → Nat) (k : Nat) (hd : defenseStat move defender ≠ 0) :
    ∃ d, calculateDamage attacker move defender raw k = some (d, k + 2) := by
  obtain ⟨d, hd1⟩ := baseDamage_isSome move.Power (attackStat attacker move) _ hd
  unfold calculateDamage
  simp only [hd1]
  exact ⟨_, rfl⟩

theorem defenseStat_ne_zero (move : Move) (defender : Pokemon)
    (hd : defender.Stats "defense" ≠ 0) (hsd : defender.Stats "special-defense" ≠ 0) :
    defenseStat move defender ≠ 0 := by
  unfold defenseStat
  split <;> assumption

theorem f64ToInt_range (x : ℚ) :
    -9223372036854775808 ≤ f64ToInt x ∧ f64ToInt x < 9223372036854775808 := by
  unfold f64ToInt
  split
  · next h => exact h
  · decide

theorem calculateDamage_range (attacker : Pokemon) (move : Move) (defender : Pokemon)
    (raw : Nat → Nat) (k : Nat) (d : Int) (k2 : Nat)
    (h : calculateDamage attacker move defender raw k = some (d, k2)) :
    -9223372036854775808 ≤ d ∧ d < 9223372036854775808 := by
  unfold calculateDamage at h
  cases hb : baseDamage move.Power (attackStat attacker move) (defenseStat move defender) with
  | none => simp [hb] at h
  | some b =>
    simp only [hb, Option.some.injEq, Prod.mk.injEq] at h
    rw [← h.1]
    exact f64ToInt_range _

/-- Every way a call of `Attack` can end: a panic, a forfeit that changes
nothing, or a move with `Pp > 0` used once and a clamped damage taken. -/
theorem Attack_cases (p enemy : Pokemon) (raw : Nat → Nat) (k : Nat) :
    Attack p enemy raw k = none ∨
    (∃ k1, Attack p enemy raw k = some (p, enemy, k1)) ∨
    (∃ idx move damage k2, p.Moves[idx]? = some move ∧ 0 < move.Pp ∧
      (0 ≤ damage ∧ damage < 9223372036854775808) ∧
      Attack p enemy raw k = some (usePp p idx move, takeDamage enemy damage, k2)) := by
  by_cases hne : p.Moves = []
  · left
    unfold Attack
    rw [hne, selectLoop_nil]
  · rcases selectLoop_cases p.Moves raw hne 10 0 k rfl with ⟨k1, h⟩ | ⟨idx, k1, move, h, hm, hpp⟩
    · right; left
      exact ⟨k1, by unfold Attack; rw [h]⟩
    · unfold Attack
      rw [h]
      simp only [hm]
      cases hc : calculateDamage (usePp p idx move) { move with Pp := move.Pp - 1 } enemy raw k1 with
      | none => left; rfl
      | some r =>
        right; right
        obtain ⟨damage, k2⟩ := r
        have hr := calculateDamage_range _ _ _ _ _ _ _ hc
        refine ⟨idx, move, if damage < 0 then 0 else damage, k2, hm, hpp, ?_, rfl⟩
        split <;> omega

/-- A call of `Attack` returns when the loadout is not empty and the defense
stats of the enemy are not zero. -/
theorem Attack_returns (p enemy : Pokemon) (raw : Nat → Nat) (k : Nat) (hne : p.Moves ≠ [])
    (hd : enemy.Stats "defense" ≠ 0) (hsd : enemy.Stats "special-defense" ≠ 0) :
    ∃ r, Attack p enemy raw k = some r := by
  rcases selectLoop_cases p.Moves raw hne 10 0 k rfl with ⟨k1, h⟩ | ⟨idx, k1, move, h, hm, hpp⟩
  · exact ⟨_, by unfold Attack; rw [h]⟩
  · obtain ⟨d, hc⟩ := calculateDamage_isSome (usePp p idx move) { move with Pp := move.Pp - 1 }
      enemy raw k1 (defenseStat_ne_zero _ enemy hd hsd)
    unfold Attack
    rw [h]
    simp only [hm, hc]
    exact ⟨_, rfl⟩

/-- C3 (as stated, refuted): with the only move exhausted the selection loop
gives up after eleven draws, not ten, and `Attack` returns with eleven outcomes
of the random source consumed; and when the first ten draws hit an exhausted
move, the eleventh draw is still made and can select a usable move. -/
theorem Attack_ten_attempts_refuted :
    selectLoop [spentMove] (fun _ => 0) 0 0 = Selection.forfeited 11 ∧
    selectLoop [spentMove] (fun _ => 0) 0 0 ≠ Selection.forfeited 10 ∧
    (Attack (fighter [spentMove]) (fighter [tackle]) (fun _ => 0) 0).map (fun r => r.2.2)
      = some 11 ∧
    selectLoop [spentMove, tackle] (fun k => if k < 10 then 0 else 1) 0 0
      = Selection.chosen 1 11 := by
  have h : selectLoop [spentMove] (fun _ => 0) 0 0 = Selection.forfeited 11 := by
    simp [selectLoop, randIntn, spentMove]
  refine ⟨h, ?_, ?_, ?_⟩
  · rw [h]
    decide
  · have hm : (fighter [spentMove]).Moves = [spentMove] := rfl
    unfold Attack
    rw [hm, h]
    rfl
  · simp [selectLoop, randIntn, spentMove, tackle]

/-- C3 (amended): for every attacker with a non-empty loadout whose moves all
have `Pp = 0`, and every random source, `Attack` forfeits: attacker and
defender are returned unchanged (so the defender's hp and every `Pp` are
unchanged), no damage is computed, and exactly 11 outcomes of the random
source, the 11 move-selection attempts, have been consumed. -/
theorem Attack_forfeits_when_exhausted (p enemy : Pokemon) (raw : Nat → Nat) (k : Nat)
    (hne : p.Moves ≠ []) (h0 : ∀ m ∈ p.Moves, m.Pp = 0) :
    selectLoop p.Moves raw 0 k = Selection.forfeited (k + 11) ∧
    Attack p enemy raw k = some (p, enemy, k + 11) := by
  have h := selectLoop_exhausted p.Moves raw hne h0 10 0 k rfl
  refine ⟨h, ?_⟩
  unfold Attack
  rw [h]

/-- Witness of `Attack_forfeits_when_exhausted`: a loadout of one exhausted
move. -/
theorem Attack_forfeits_when_exhausted_witness :
    selectLoop (fighter [spentMove]).Moves (fun _ => 0) 0 0 = Selection.forfeited (0 + 11) ∧
    Attack (fighter [spentMove]) (fighter [tackle]) (fun _ => 0) 0
      = some (fighter [spentMove], fighter [tackle], 0 + 11) :=
  Attack_forfeits_when_exhausted (fighter [spentMove]) (fighter [tackle]) (fun _ => 0) 0
    (by decide) (by decide)

/-- C4 (the code at the failing input): with an empty loadout `Attack` does not
forfeit; `rand.Intn(0)` panics. -/
theorem Attack_empty_loadout_panics (p enemy : Pokemon) (raw : Nat → Nat) (k : Nat)
    (h : p.Moves = []) : Attack p enemy raw k = none := by
  unfold Attack
  rw [h, selectLoop_nil]

/-- Witness of `Attack_empty_loadout_panics`: a combatant without moves. -/
theorem Attack_empty_loadout_panics_witness :
    Attack (fighter []) (fighter [tackle]) (fun _ => 0) 0 = none :=
  Attack_empty_loadout_panics (fighter []) (fighter [tackle]) (fun _ => 0) 0 rfl

/-! ## Remaining uses -/

theorem ppNonneg_usePp (p : Pokemon) (idx : Nat) (move : Move) (hp : ppNonneg p)
    (hpos : 0 < move.Pp) : ppNonneg (usePp p idx move) := by
  intro m hm
  rcases List.mem_or_eq_of_mem_set hm with h | h
  · exact hp m h
  · subst h
    show 0 ≤ move.Pp - 1
    omega

/-- Effect of one returning call of `Attack` on the loadouts. -/
theorem Attack_pp_step (p enemy : Pokemon) (raw : Nat → Nat) (k : Nat) (hp : ppNonneg p)
    (p1 e1 : Pokemon) (k1 : Nat) (h : Attack p enemy raw k = some (p1, e1, k1)) :
    ppNonneg p1 ∧ e1.Moves = enemy.Moves ∧
    (p1.Moves = p.Moves ∨
      ∃ idx move, p.Moves[idx]? = some move ∧ 0 < move.Pp ∧
        p1.Moves = p.Moves.set idx { move with Pp := move.Pp - 1 }) := by
  rcases Attack_cases p enemy raw k with h0 | ⟨k2, h1⟩ | ⟨idx, move, damage, k2, hm, hpos, _, h2⟩
  · rw [h0] at h
    cases h
  · rw [h1] at h
    cases h
    exact ⟨hp, rfl, Or.inl rfl⟩
  · rw [h2] at h
    cases h
    exact ⟨ppNonneg_usePp p idx move hp hpos, rfl, Or.inr ⟨idx, move, hm, hpos, rfl⟩⟩

/-- The battle loop keeps every `Pp` of both combatants non-negative. -/
theorem battleLoop_ppNonneg (raw : Nat → Nat) :
    ∀ (fuel : Nat) (p1 p2 : Pokemon) (k : Nat), ppNonneg p1 → ppNonneg p2 →
      ppNonneg (battleLoop raw fuel p1 p2 k).pokemon1 ∧
      ppNonneg (battleLoop raw fuel p1 p2 k).pokemon2 := by
  intro fuel
  induction fuel with
  | zero =>
    intro p1 p2 k h1 h2
    exact ⟨h1, h2⟩
  | succ fuel ih =>
    intro p1 p2 k h1 h2
    rw [battleLoop]
    split
    · cases hA : Attack p1 p2 raw k with
      | none => exact ⟨h1, h2⟩
      | some r =>
        obtain ⟨a1, d2, k1⟩ := r
        obtain ⟨ha1, hd2, _⟩ := Attack_pp_step p1 p2 raw k h1 a1 d2 k1 hA
        have hd2n : ppNonneg d2 := by
          intro m hm
          rw [hd2] at hm
          exact h2 m hm
        dsimp only
        split
        · exact ⟨ha1, hd2n⟩
        · cases hB : Attack d2 a1 raw k1 with
          | none => exact ⟨ha1, hd2n⟩
          | some r2 =>
            obtain ⟨a2, d1, k2⟩ := r2
            obtain ⟨ha2, hd1, _⟩ := Attack_pp_step d2 a1 raw k1 hd2n a2 d1 k2 hB
            have hd1n : ppNonneg d1 := by
              intro m hm
              rw [hd1] at hm
              exact ha1 m hm
            exact ih d1 a2 k2 hd1n ha2
    · exact ⟨h1, h2⟩

/-- C5: if every move of the attacker has `Pp ≥ 0` before a call of `Attack`,
then for every random source a returning call leaves every `Pp ≥ 0`, changes
at most one move, whose `Pp` was positive and has dropped by exactly 1, and
leaves the defender's moves alone; the call does return when the loadout is
not empty and the defender's defense stats are not zero; and after any number
of iterations of the battle loop every `Pp` of both combatants is still
non-negative. -/
theorem Attack_pp_never_negative (p enemy : Pokemon) (raw : Nat → Nat) (k : Nat)
    (hp : ∀ m ∈ p.Moves, 0 ≤ m.Pp) :
    (∀ p1 e1 k1, Attack p enemy raw k = some (p1, e1, k1) →
      (∀ m ∈ p1.Moves, 0 ≤ m.Pp) ∧ e1.Moves = enemy.Moves ∧
      (p1.Moves = p.Moves ∨
        ∃ idx move, p.Moves[idx]? = some move ∧ 0 < move.Pp ∧
          p1.Moves = p.Moves.set idx { move with Pp := move.Pp - 1 })) ∧
    (p.Moves ≠ [] → enemy.Stats "defense" ≠ 0 → enemy.Stats "special-defense" ≠ 0 →
      ∃ r, Attack p enemy raw k = some r) ∧
    (∀ fuel, (∀ m ∈ enemy.Moves, 0 ≤ m.Pp) →
      (∀ m ∈ (battleLoop raw fuel p enemy k).pokemon1.Moves, 0 ≤ m.Pp) ∧
      (∀ m ∈ (battleLoop raw fuel p enemy k).pokemon2.Moves, 0 ≤ m.Pp)) :=
  ⟨fun p1 e1 k1 h => Attack_pp_step p enemy raw k hp p1 e1 k1 h,
   fun hne hd hsd => Attack_returns p enemy raw k hne hd hsd,
   fun fuel he => battleLoop_ppNonneg raw fuel p enemy k hp he⟩

/-- Witness of `Attack_pp_never_negative`: a combatant with one usable and one
exhausted move. -/
theorem Attack_pp_never_negative_witness :
    (∃ r, Attack (fighter [tackle, spentMove]) (fighter [tackle]) (fun n => n) 0 = some r) ∧
    (∀ m ∈ (battleLoop (fun n => n) 5 (fighter [tackle, spentMove]) (fighter [tackle]) 0).pokemon1.Moves,
      0 ≤ m.Pp) :=
  have h := Attack_pp_never_negative (fighter [tackle, spentMove]) (fighter [tackle])
    (fun n => n) 0 (by decide)
  ⟨h.2.1 (by decide) (by decide) (by decide), (h.2.2 5 (by decide)).1⟩

/-! ## Type effectiveness: theorems -/

theorem applyRelation_eq_pow (moveType : String) (factor : ℚ) (names : List String) :
    ∀ e : ℚ, applyRelation moveType factor names e = e * factor ^ names.count moveType := by
  unfold applyRelation
  induction names with
  | nil => intro e; simp
  | cons n ns ih =>
    intro e
    rw [List.foldl_cons, ih, List.count_cons]
    by_cases h : n = moveType
    · simp [h, pow_succ]
      ring
    · simp [h]

theorem applyRelation_nodup (moveType : String) (factor : ℚ) (names : List String)
    (hnd : names.Nodup) (e : ℚ) :
    applyRelation moveType factor names e = e * (if moveType ∈ names then factor else 1) := by
  rw [applyRelation_eq_pow]
  by_cases h : moveType ∈ names
  · rw [List.count_eq_one_of_mem hnd h, if_pos h, pow_one]
  · rw [List.count_eq_zero_of_not_mem h, if_neg h, pow_zero]

theorem effectivenessLoop_eq_prod (moveType : String) (types : List PType)
    (hnd : ∀ t ∈ types, relationsNodup t) :
    ∀ e : ℚ, effectivenessLoop moveType types e = e * effectivenessProduct moveType types := by
  unfold effectivenessLoop effectivenessProduct
  induction types with
  | nil => intro e; simp
  | cons t ts ih =>
    intro e
    obtain ⟨h1, h2, h3⟩ := hnd t (List.mem_cons_self t ts)
    rw [List.foldl_cons, ih (fun u hu => hnd u (List.mem_cons_of_mem t hu)),
      applyRelation_nodup _ _ _ h3, applyRelation_nodup _ _ _ h2, applyRelation_nodup _ _ _ h1,
      List.map_cons, List.prod_cons]
    unfold relationFactor
    ring

theorem prod_map_ite_eq_pow (c : ℚ) (p : PType → Prop) [DecidablePred p] (types : List PType) :
    (types.map (fun t => if p t then c else 1)).prod = c ^ types.countP (fun t => decide (p t)) := by
  induction types with
  | nil => simp
  | cons t ts ih =>
    rw [List.map_cons, List.prod_cons, ih, List.countP_cons]
    by_cases h : p t
    · simp [h, pow_succ]
      ring
    · simp [h]

theorem effectivenessProduct_eq_pow (moveType : String) (types : List PType) :
    effectivenessProduct moveType types
      = 0 ^ types.countP (fun t => decide (moveType ∈ t.NoDamageFrom))
        * (1 / 2) ^ types.countP (fun t => decide (moveType ∈ t.HalfDamageFrom))
        * 2 ^ types.countP (fun t => decide (moveType ∈ t.DoubleDamageFrom)) := by
  rw [← prod_map_ite_eq_pow, ← prod_map_ite_eq_pow, ← prod_map_ite_eq_pow,
    ← List.prod_map_mul, ← List.prod_map_mul]
  rfl

theorem perm_cons_set {α : Type} (x b : α) :
    ∀ (xs : List α) (j : Nat), xs[j]? = some b → (b :: xs.set j x).Perm (x :: xs) := by
  intro xs
  induction xs with
  | nil => intro j h; simp at h
  | cons y ys ih =>
    intro j h
    cases j with
    | zero =>
      simp only [List.getElem?_cons_zero, Option.some.injEq] at h
      subst h
      exact List.Perm.swap _ _ _
    | succ j =>
      simp only [List.getElem?_cons_succ] at h
      simp only [List.set_cons_succ]
      exact ((List.Perm.swap y b _).trans ((ih j h).cons y)).trans (List.Perm.swap x y ys)

theorem set_set_perm_of_getElem? {α : Type} :
    ∀ (l : List α) (i j : Nat) (a b : α), l[i]? = some a → l[j]? = some b →
      ((l.set i b).set j a).Perm l := by
  intro l
  induction l with
  | nil => intro i j a b h; simp at h
  | cons x xs ih =>
    intro i j a b hi hj
    cases i with
    | zero =>
      simp only [List.getElem?_cons_zero, Option.some.injEq] at hi
      subst hi
      cases j with
      | zero =>
        simp only [List.getElem?_cons_zero, Option.some.injEq] at hj
        subst hj
        simp
      | succ j =>
        simp only [List.getElem?_cons_succ] at hj
        simp only [List.set_cons_zero, List.set_cons_succ]
        exact perm_cons_set x b xs j hj
    | succ i =>
      simp only [List.getElem?_cons_succ] at hi
      cases j with
      | zero =>
        simp only [List.getElem?_cons_zero, Option.some.injEq] at hj
        subst hj
        simp only [List.set_cons_zero, List.set_cons_succ]
        exact perm_cons_set x a xs i hi
      | succ j =>
        simp only [List.getElem?_cons_succ] at hj
        simp only [List.set_cons_succ]
        exact (ih i j a b hi hj).cons x

theorem swapAt_perm {α : Type} (l : List α) (i j : Nat) : (swapAt l i j).Perm l := by
  unfold swapAt
  split
  · next a b hi hj => exact set_set_perm_of_getElem? l i j a b hi hj
  · exact List.Perm.refl l

theorem swapAt_map {α β : Type} (f : α → β) (l : List α) (i j : Nat) :
    swapAt (l.map f) i j = (swapAt l i j).map f := by
  unfold swapAt
  rw [List.getElem?_map, List.getElem?_map]
  cases l[i]? <;> cases l[j]? <;> simp [List.map_set]

theorem shuffleLoop_perm {α : Type} (raw : Nat → Nat) :
    ∀ (i : Nat) (l : List α) (k : Nat), (shuffleLoop raw i l k).1.Perm l := by
  intro i
  induction i with
  | zero => intro l k; exact List.Perm.refl l
  | succ i ih =>
    intro l k
    rw [shuffleLoop]
    exact (ih _ _).trans (swapAt_perm l _ _)

theorem shuffleLoop_map {α β : Type} (f : α → β) (raw : Nat → Nat) :
    ∀ (i : Nat) (l : List α) (k : Nat),
      (shuffleLoop raw i (l.map f) k).1 = (shuffleLoop raw i l k).1.map f := by
  intro i
  induction i with
  | zero => intro l k; rfl
  | succ i ih =>
    intro l k
    rw [shuffleLoop, shuffleLoop, swapAt_map, ih]

theorem shuffle_perm {α : Type} (raw : Nat → Nat) (l : List α) (k : Nat) :
    (shuffle raw l k).1.Perm l :=
  shuffleLoop_perm raw _ l k

theorem shuffle_map {α β : Type} (f : α → β) (raw : Nat → Nat) (l : List α) (k : Nat) :
    (shuffle raw (l.map f) k).1 = (shuffle raw l k).1.map f := by
  unfold shuffle
  rw [List.length_map, shuffleLoop_map]

theorem map_some_eq_range_map {α : Type} (l : List α) :
    l.map some = (List.range l.length).map (fun i => l[i]?) := by
  apply List.ext_getElem?
  intro n
  rw [List.getElem?_map, List.getElem?_map]
  by_cases h : n < l.length
  · simp [List.getElem?_range, h]
  · have h1 : l[n]? = none := List.getElem?_eq_none (by omega)
    have h2 : (List.range l.length)[n]? = none :=
      List.getElem?_eq_none (by rw [List.length_range]; omega)
    rw [h1, h2]
    rfl

/-- The shuffled list reads the original list at the shuffled positions. -/
theorem shuffle_eq_index_map {α : Type} (raw : Nat → Nat) (l : List α) (k : Nat) :
    (shuffle raw l k).1.map some
      = (shuffle raw (List.range l.length) k).1.map (fun i => l[i]?) := by
  rw [← shuffle_map, map_some_eq_range_map, shuffle_map]

theorem selectRandomMoves_le (candidates : List Move) (raw : Nat → Nat) (k : Nat)
    (h : candidates.length ≤ 4) : (selectRandomMoves candidates 4 raw k).1 = candidates := by
  unfold selectRandomMoves
  rw [if_pos h]

theorem selectRandomMoves_gt (candidates : List Move) (raw : Nat → Nat) (k : Nat)
    (h : 4 < candidates.length) :
    (selectRandomMoves candidates 4 raw k).1 = (shuffle raw candidates k).1.take 4 := by
  unfold selectRandomMoves
  rw [if_neg (by omega)]

/-- C8: for every candidate list and every outcome of the shuffle,
`selectRandomMoves(candidates, 4)` returns `min(n, 4)` moves, never more than
4: the candidate list itself when `n ≤ 4`, otherwise the first 4 entries of a
permutation of the candidates; every selected move is a candidate, and the
selected moves are the candidates at pairwise different positions. -/
theorem selectRandomMoves_loadout (candidates : List Move) (raw : Nat → Nat) (k : Nat) :
    (selectRandomMoves candidates 4 raw k).1.length = min candidates.length 4 ∧
    (selectRandomMoves candidates 4 raw k).1.length ≤ 4 ∧
    (candidates.length ≤ 4 → (selectRandomMoves candidates 4 raw k).1 = candidates) ∧
    (4 < candidates.length → ∃ shuffled : List Move, shuffled.Perm candidates ∧
      (selectRandomMoves candidates 4 raw k).1 = shuffled.take 4) ∧
    (∀ m ∈ (selectRandomMoves candidates 4 raw k).1, m ∈ candidates) ∧
    (∃ idxs : List Nat, idxs.Nodup ∧ (∀ i ∈ idxs, i < candidates.length) ∧
      (selectRandomMoves candidates 4 raw k).1.map some = idxs.map (fun i => candidates[i]?)) := by
  by_cases h : candidates.length ≤ 4
  · have hr := selectRandomMoves_le candidates raw k h
    rw [hr]
    refine ⟨by omega, h, fun _ => rfl, fun h4 => by omega, fun m hm => hm, ?_⟩
    exact ⟨List.range candidates.length, List.nodup_range _,
      fun i hi => List.mem_range.mp hi, map_some_eq_range_map candidates⟩
  · have h4 : 4 < candidates.length := by omega
    have hr := selectRandomMoves_gt candidates raw k h4
    have hperm := shuffle_perm raw candidates k
    have hlen : (shuffle raw candidates k).1.length = candidates.length := hperm.length_eq
    rw [hr]
    refine ⟨?_, ?_, fun h5 => by omega, fun _ => ⟨_, hperm, rfl⟩, ?_, ?_⟩
    · rw [List.length_take, hlen]
      omega
    · rw [List.length_take]
      omega
    · intro m hm
      exact hperm.mem_iff.mp (List.mem_of_mem_take hm)
    · have hidx := shuffle_perm raw (List.range candidates.length) k
      refine ⟨(shuffle raw (List.range candidates.length) k).1.take 4, ?_, ?_, ?_⟩
      · exact ((hidx.nodup_iff).mpr (List.nodup_range _)).sublist (List.take_sublist _ _)
      · intro i hi
        exact List.mem_range.mp (hidx.mem_iff.mp (List.mem_of_mem_take hi))
      · rw [List.map_take, shuffle_eq_index_map, ← List.map_take]

/-- Witness of `selectRandomMoves_loadout`: five candidates give four moves
taken from a permutation of the five. -/
theorem selectRandomMoves_loadout_witness :
    (selectRandomMoves fiveMoves 4 (fun n => n) 0).1.length = min fiveMoves.length 4 ∧
    ∃ shuffled : List Move, shuffled.Perm fiveMoves ∧
      (selectRandomMoves fiveMoves 4 (fun n => n) 0).1 = shuffled.take 4 :=
  ⟨(selectRandomMoves_loadout fiveMoves (fun n => n) 0).1,
   (selectRandomMoves_loadout fiveMoves (fun n => n) 0).2.2.2.1 (by decide)⟩

/-! ## Damage: theorems -/

theorem randFloat64_bounds (raw : Nat → Nat) (k : Nat) :
    0 ≤ randFloat64 raw k ∧ randFloat64 raw k ≤ 1 := by
  unfold randFloat64 f64OfInt
  have h0 : (0 : ℚ) ≤ (((raw k % 9223372036854775296 : Nat) : Int) : ℚ) := by positivity
  have hle : (((raw k % 9223372036854775296 : Nat) : Int) : ℚ) ≤ 9223372036854775808 := by
    have : raw k % 9223372036854775296 ≤ 9223372036854775808 := by omega
    exact_mod_cast this
  have h1 := f64Round_nonneg _ h0
  have h2 := f64Round_le_of _ 9223372036854775808 1 63 (by decide) (by decide) (by norm_num) hle
  constructor
  · positivity
  · rw [div_le_one (by norm_num)]
    exact h2

/-- The variance factor `rand.Float64()*0.15 + 0.85` lies in `[0, 2]`. -/
theorem varianceRoll_bounds (raw : Nat → Nat) (k : Nat) :
    0 ≤ varianceRoll raw k ∧ varianceRoll raw k ≤ 2 := by
  obtain ⟨r0, r1⟩ := randFloat64_bounds raw k
  have c0 : 0 ≤ varianceScale := f64Round_nonneg _ (by norm_num)
  have c1 : varianceScale ≤ 1 / 4 :=
    f64Round_le_of _ (1 / 4) 1 (-2) (by decide) (by decide) (by norm_num) (by norm_num)
  have d0 : 0 ≤ varianceBase := f64Round_nonneg _ (by norm_num)
  have d1 : varianceBase ≤ 1 :=
    f64Round_le_of _ 1 1 0 (by decide) (by decide) (by norm_num) (by norm_num)
  have p0 : 0 ≤ f64Mul (randFloat64 raw k) varianceScale := f64Round_nonneg _ (mul_nonneg r0 c0)
  have p1 : f64Mul (randFloat64 raw k) varianceScale ≤ 1 / 4 := by
    apply f64Round_le_of _ (1 / 4) 1 (-2) (by decide) (by decide) (by norm_num)
    calc randFloat64 raw k * varianceScale ≤ 1 * varianceScale :=
          mul_le_mul_of_nonneg_right r1 c0
      _ = varianceScale := one_mul _
      _ ≤ 1 / 4 := c1
  unfold varianceRoll
  constructor
  · exact f64Round_nonneg _ (add_nonneg p0 d0)
  · exact f64Round_le_of _ 2 1 1 (by decide) (by decide) (by norm_num) (by linarith)

theorem applyStab_bounds (moveType : String) (types : List PType) (m : ℚ) (h0 : 0 ≤ m)
    (h1 : m ≤ 1) : 0 ≤ applyStab moveType types m ∧ applyStab moveType types m ≤ 3 / 2 := by
  induction types with
  | nil => exact ⟨h0, by unfold applyStab; linarith⟩
  | cons t ts ih =>
    unfold applyStab
    split
    · constructor
      · exact f64Round_nonneg _ (by positivity)
      · exact f64Round_le_of _ (3 / 2) 3 (-1) (by decide) (by decide) (by norm_num) (by linarith)
    · exact ih

theorem applyRelation_nonneg (moveType : String) (factor : ℚ) (hf : 0 ≤ factor)
    (names : List String) : ∀ e : ℚ, 0 ≤ e → 0 ≤ applyRelation moveType factor names e := by
  unfold applyRelation
  induction names with
  | nil => intro e he; exact he
  | cons n ns ih =>
    intro e he
    rw [List.foldl_cons]
    apply ih
    split
    · positivity
    · exact he

theorem effectivenessLoop_nonneg (moveType : String) (types : List PType) :
    ∀ e : ℚ, 0 ≤ e → 0 ≤ effectivenessLoop moveType types e := by
  unfold effectivenessLoop
  induction types with
  | nil => intro e he; exact he
  | cons t ts ih =>
    intro e he
    rw [List.foldl_cons]
    apply ih
    apply applyRelation_nonneg _ _ (by norm_num)
    apply applyRelation_nonneg _ _ (by norm_num)
    exact applyRelation_nonneg _ _ (le_refl 0) _ e he

theorem relationFactor_bounds (moveType : String) (t : PType) :
    0 ≤ relationFactor moveType t ∧ relationFactor moveType t ≤ 2 := by
  unfold relationFactor
  split <;> split <;> split <;> norm_num

/-- A defender with at most two types, whose relation lists hold no name
twice, has type effectiveness at most 4. -/
theorem typeEffectiveness_le_four (moveType : String) (types : List PType)
    (hlen : types.length ≤ 2) (hnd : ∀ t ∈ types, relationsNodup t) :
    typeEffectiveness moveType types ≤ 4 := by
  unfold typeEffectiveness
  rw [effectivenessLoop_eq_prod moveType types hnd, one_mul]
  unfold effectivenessProduct
  match types, hlen with
  | [], _ => norm_num
  | [a], _ =>
    have := relationFactor_bounds moveType a
    simp only [List.map_cons, List.map_nil, List.prod_cons, List.prod_nil, mul_one]
    linarith
  | [a, b], _ =>
    obtain ⟨a0, a1⟩ := relationFactor_bounds moveType a
    obtain ⟨b0, b1⟩ := relationFactor_bounds moveType b
    simp only [List.map_cons, List.map_nil, List.prod_cons, List.prod_nil, mul_one]
    nlinarith
  | _ :: _ :: _ :: _, h => simp at h

/-- The modifier lies in `[0, 24]` when the type effectiveness is at most 4. -/
theorem calculateModifier_bounds (attacker : Pokemon) (move : Move) (defender : Pokemon)
    (raw : Nat → Nat) (k : Nat) (heff : typeEffectiveness move.MoveType defender.Types ≤ 4) :
    0 ≤ (calculateModifier attacker move defender raw k).1 ∧
    (calculateModifier attacker move defender raw k).1 ≤ 24 := by
  obtain ⟨s0, s1⟩ := applyStab_bounds move.MoveType attacker.Types 1 (by norm_num) (le_refl 1)
  have e0 : 0 ≤ typeEffectiveness move.MoveType defender.Types :=
    effectivenessLoop_nonneg _ _ 1 (by norm_num)
  obtain ⟨v0, v1⟩ := varianceRoll_bounds raw (k + 1)
  have m0 : 0 ≤ f64Mul (applyStab move.MoveType attacker.Types 1)
      (typeEffectiveness move.MoveType defender.Types) := f64Round_nonneg _ (mul_nonneg s0 e0)
  have m1 : f64Mul (applyStab move.MoveType attacker.Types 1)
      (typeEffectiveness move.MoveType defender.Types) ≤ 6 :=
    f64Round_le_of _ 6 3 1 (by decide) (by decide) (by norm_num) (by nlinarith)
  unfold calculateModifier
  dsimp only
  split
  · have c0 : 0 ≤ f64Mul (f64Mul (applyStab move.MoveType attacker.Types 1)
        (typeEffectiveness move.MoveType defender.Types)) 2 := f64Round_nonneg _ (by positivity)
    have c1 : f64Mul (f64Mul (applyStab move.MoveType attacker.Types 1)
        (typeEffectiveness move.MoveType defender.Types)) 2 ≤ 12 :=
      f64Round_le_of _ 12 3 2 (by decide) (by decide) (by norm_num) (by linarith)
    exact ⟨f64Round_nonneg _ (mul_nonneg c0 v0),
      f64Round_le_of _ 24 3 3 (by decide) (by decide) (by norm_num) (by nlinarith)⟩
  · exact ⟨f64Round_nonneg _ (mul_nonneg m0 v0),
      f64Round_le_of _ 24 3 3 (by decide) (by decide) (by norm_num) (by nlinarith)⟩

theorem ediv_ediv_fifty (x d : Int) (hx : 0 ≤ x) (hd : 0 < d) : x / d / 50 = x / (50 * d) := by
  lift x to ℕ using hx
  lift d to ℕ using hd.le
  norm_cast
  rw [Nat.div_div_eq_div_mul, Nat.mul_comm d 50]

/-- Without overflow, on non-negative power and attack and a positive defense,
the wrapping multiplications and the two truncating divisions are one floor
division. -/
theorem baseDamage_eq (power attack defense : Int) (hp : 0 ≤ power) (ha : 0 ≤ attack)
    (hd : 0 < defense) (hov : 42 * power * attack < 9223372036854775808) :
    baseDamage power attack defense = some (42 * power * attack / (50 * defense) + 2) := by
  have h42 : goAdd (Int.tdiv (goMul 2 100) 5) 2 = 42 := by decide
  have hnum : (0 : Int) ≤ 42 * power * attack := by positivity
  have hq : (0 : Int) ≤ 42 * power * attack / defense := Int.ediv_nonneg hnum hd.le
  have hqle : 42 * power * attack / defense ≤ 42 * power * attack :=
    Int.ediv_le_self _ hnum
  have hmul : goMul (goMul 42 power) attack = 42 * power * attack := by
    unfold goMul
    rw [wrap64_mul_left]
    exact wrap64_eq_self _ (by omega) hov
  have hdiv : goDiv (42 * power * attack) defense = some (42 * power * attack / defense) := by
    unfold goDiv
    rw [if_neg (ne_of_gt hd), Int.tdiv_eq_ediv hnum hd.le, wrap64_eq_self _ (by omega) (by omega)]
  have h50 : Int.tdiv (42 * power * attack / defense) 50 = 42 * power * attack / (50 * defense) := by
    rw [Int.tdiv_eq_ediv hq (by decide), ediv_ediv_fifty _ _ hnum hd]
  have hle50 : 42 * power * attack / (50 * defense) ≤ 42 * power * attack :=
    Int.ediv_le_self _ hnum
  have hge50 : 0 ≤ 42 * power * attack / (50 * defense) := Int.ediv_nonneg hnum (by omega)
  have hadd : goAdd (42 * power * attack / (50 * defense)) 2
      = 42 * power * attack / (50 * defense) + 2 := by
    apply wrap64_eq_self _ (by omega)
    have := ediv_ediv_fifty _ _ hnum hd
    omega
  unfold baseDamage
  simp only [h42, hmul, hdiv, h50, hadd]

theorem tdiv_num_den_eq_floor (x : ℚ) (hx : 0 ≤ x) : Int.tdiv x.num x.den = ⌊x⌋ := by
  rw [Rat.floor_def, Int.tdiv_eq_ediv (Rat.num_nonneg.mpr hx) (Int.ofNat_nonneg _)]

/-- In range, the conversion to `int` is the floor of a non-negative value. -/
theorem f64ToInt_of_nonneg (x : ℚ) (hx : 0 ≤ x) (hlt : x < 9223372036854775808) :
    f64ToInt x = ⌊x⌋ ∧ 0 ≤ f64ToInt x := by
  have hfl : (0 : Int) ≤ ⌊x⌋ := Int.floor_nonneg.mpr hx
  have hup : ⌊x⌋ < 9223372036854775808 := by
    have h1 : ((⌊x⌋ : Int) : ℚ) ≤ x := Int.floor_le x
    have h2 : ((⌊x⌋ : Int) : ℚ) < ((9223372036854775808 : Int) : ℚ) := by
      push_cast
      linarith
    exact_mod_cast h2
  unfold f64ToInt
  rw [tdiv_num_den_eq_floor x hx, if_pos ⟨by omega, hup⟩]
  exact ⟨rfl, hfl⟩

theorem takeDamage_hp (enemy : Pokemon) (damage : Int) :
    (takeDamage enemy damage).Stats "hp" = goSub (enemy.Stats "hp") damage := by
  simp [takeDamage]

/-! ## Damage: evaluation at sample inputs -/

theorem f64Round_pos_val (x r : ℚ) (e n : Int) (he : -1074 ≤ e)
    (h1 : (2 : ℚ) ^ (e + 52) ≤ x) (h2 : x < (2 : ℚ) ^ (e + 53))
    (hlo : (n : ℚ) - 1 / 2 < x / 2 ^ e) (hhi : x / 2 ^ e < (n : ℚ) + 1 / 2)
    (hr : (n : ℚ) * 2 ^ e = r) : f64Round x = r := by
  rw [← hr]
  exact f64Round_eval_pos x e n he h1 h2 hlo hhi

theorem f64Round_neg_val (x r : ℚ) (e n : Int) (he : -1074 ≤ e)
    (h1 : (2 : ℚ) ^ (e + 52) ≤ -x) (h2 : -x < (2 : ℚ) ^ (e + 53))
    (hlo : (n : ℚ) - 1 / 2 < x / 2 ^ e) (hhi : x / 2 ^ e < (n : ℚ) + 1 / 2)
    (hr : (n : ℚ) * 2 ^ e = r) : f64Round x = r := by
  rw [← hr]
  exact f64Round_eval_neg x e n he h1 h2 hlo hhi

theorem f64ToInt_val (x : ℚ) (n : Int) (d : Nat) (hn : x.num = n) (hd : x.den = d) :
    f64ToInt x
      = if -9223372036854775808 ≤ Int.tdiv n d ∧ Int.tdiv n d < 9223372036854775808 then
          Int.tdiv n d
        else -9223372036854775808 := by
  unfold f64ToInt
  rw [hn, hd]

theorem critChance_val : critChance = 6004799503160661 / 144115188075855872 := by
  unfold critChance
  apply f64Round_pos_val _ _ (-57) 6004799503160661 <;> norm_num

theorem varianceScale_val : varianceScale = 5404319552844595 / 36028797018963968 := by
  unfold varianceScale
  apply f64Round_pos_val _ _ (-55) 5404319552844595 <;> norm_num

theorem varianceBase_val : varianceBase = 7656119366529843 / 9007199254740992 := by
  unfold varianceBase
  apply f64Round_pos_val _ _ (-53) 7656119366529843 <;> norm_num

theorem f64Round_zero : f64Round 0 = 0 := by
  simp [f64Round]

theorem randFloat64_rawZero (k : Nat) : randFloat64 rawZero k = 0 := by
  simp [randFloat64, rawZero, f64OfInt, f64Round_zero]

theorem randFloat64_rawHalf (k : Nat) : randFloat64 rawHalf k = 1 / 2 := by
  have h : f64Round 4611686018427387904 = 4611686018427387904 := by
    apply f64Round_pos_val _ _ 10 4503599627370496 <;> norm_num
  simp only [randFloat64, rawHalf, f64OfInt]
  norm_num
  rw [h]
  norm_num

theorem varianceRoll_rawZero (k : Nat) :
    varianceRoll rawZero k = 7656119366529843 / 9007199254740992 := by
  unfold varianceRoll f64Add f64Mul
  rw [randFloat64_rawZero, zero_mul, f64Round_zero, zero_add, varianceBase_val]
  apply f64Round_pos_val _ _ (-53) 7656119366529843 <;> norm_num

theorem varianceRoll_rawHalf (k : Nat) :
    varianceRoll rawHalf k = 8331659310635417 / 9007199254740992 := by
  have h1 : f64Round (1 / 2 * (5404319552844595 / 36028797018963968))
      = 5404319552844595 / 72057594037927936 := by
    apply f64Round_pos_val _ _ (-56) 5404319552844595 <;> norm_num
  unfold varianceRoll f64Add f64Mul
  rw [randFloat64_rawHalf, varianceScale_val, varianceBase_val, h1]
  apply f64Round_pos_val _ _ (-53) 8331659310635417 <;> norm_num

/-- The modifier of an attacker without types, in terms of the effectiveness. -/
theorem calculateModifier_no_types (attacker : Pokemon) (move : Move) (defender : Pokemon)
    (raw : Nat → Nat) (k : Nat) (ht : attacker.Types = []) :
    calculateModifier attacker move defender raw k
      = (f64Mul (if randFloat64 raw k < critChance then
            f64Mul (f64Mul 1 (typeEffectiveness move.MoveType defender.Types)) 2
          else f64Mul 1 (typeEffectiveness move.MoveType defender.Types))
          (varianceRoll raw (k + 1)), k + 2) := by
  unfold calculateModifier
  rw [ht]
  rfl

theorem typeEffectiveness_nil (moveType : String) : typeEffectiveness moveType [] = 1 := rfl

/-- Critical hit with the lowest variance, no types: the modifier is 1.7. -/
theorem modifier_rawZero (attacker : Pokemon) (move : Move) (defender : Pokemon) (k : Nat)
    (ht : attacker.Types = []) (hd : defender.Types = []) :
    calculateModifier attacker move defender rawZero k
      = (7656119366529843 / 4503599627370496, k + 2) := by
  have h1 : f64Round (1 * 1) = 1 := by
    apply f64Round_pos_val _ _ (-52) 4503599627370496 <;> norm_num
  have h2 : f64Round (1 * 2) = 2 := by
    apply f64Round_pos_val _ _ (-51) 4503599627370496 <;> norm_num
  have h3 : f64Round (2 * (7656119366529843 / 9007199254740992))
      = 7656119366529843 / 4503599627370496 := by
    apply f64Round_pos_val _ _ (-52) 7656119366529843 <;> norm_num
  have hc : (0 : ℚ) < critChance := by rw [critChance_val]; norm_num
  rw [calculateModifier_no_types _ _ _ _ _ ht, hd, typeEffectiveness_nil, randFloat64_rawZero,
    if_pos hc, varianceRoll_rawZero]
  unfold f64Mul
  rw [h1, h2, h3]

/-- No critical hit, variance roll 0.5, no types: the modifier is the
`float64` just below 0.925. -/
theorem modifier_rawHalf (attacker : Pokemon) (move : Move) (defender : Pokemon) (k : Nat)
    (ht : attacker.Types = []) (hd : defender.Types = []) :
    calculateModifier attacker move defender rawHalf k
      = (8331659310635417 / 9007199254740992, k + 2) := by
  have h1 : f64Round (1 * 1) = 1 := by
    apply f64Round_pos_val _ _ (-52) 4503599627370496 <;> norm_num
  have h3 : f64Round (1 * (8331659310635417 / 9007199254740992))
      = 8331659310635417 / 9007199254740992 := by
    apply f64Round_pos_val _ _ (-53) 8331659310635417 <;> norm_num
  have hc : ¬ ((1 : ℚ) / 2 < critChance) := by rw [critChance_val]; norm_num
  rw [calculateModifier_no_types _ _ _ _ _ ht, hd, typeEffectiveness_nil, randFloat64_rawHalf,
    if_neg hc, varianceRoll_rawHalf]
  unfold f64Mul
  rw [h1, h3]

/-- Every outcome of `rand.Float64()` is below 1. -/
theorem randFloat64_lt_one (raw : Nat → Nat) (k : Nat) : randFloat64 raw k < 1 := by
  unfold randFloat64 f64OfInt
  have hlt : raw k % 9223372036854775296 < 9223372036854775296 := Nat.mod_lt _ (by decide)
  generalize raw k % 9223372036854775296 = n at hlt
  rw [div_lt_one (by norm_num), Int.cast_natCast]
  rcases Nat.lt_or_ge 9223372036854774784 n with hbig | hsmall
  · have h1 : (9223372036854774784 : ℚ) < (n : ℚ) := by exact_mod_cast hbig
    have h2 : (n : ℚ) < 9223372036854775296 := by exact_mod_cast hlt
    have h := f64Round_pos_val (n : ℚ) 9223372036854774784 10 9007199254740991
      (by decide) (by norm_num; linarith) (by norm_num; linarith)
      (by norm_num; linarith) (by norm_num; linarith) (by norm_num)
    rw [h]
    norm_num
  · have h1 : (n : ℚ) ≤ 9223372036854774784 := by exact_mod_cast hsmall
    have h := f64Round_le_of (n : ℚ) 9223372036854774784 9007199254740991 10
      (by decide) (by decide) (by norm_num) h1
    linarith

/-- The first draw that `rand.Float64()` throws away: `float64(2^63 - 512)` is
a tie between `2^63 - 1024` and `2^63` and rounds to `2^63`, so the quotient
would be 1. -/
theorem f64Round_rejected_draw : f64Round 9223372036854775296 = 9223372036854775808 := by
  have he : f64Exponent 9223372036854775296 = 10 :=
    f64Exponent_eq _ 10 (by decide) (by norm_num) (by norm_num [abs_of_pos])
      (by norm_num [abs_of_pos])
  have hy : (9223372036854775296 : ℚ) / 2 ^ (10 : Int) = ((9007199254740991 : Int) : ℚ) + 1 / 2 := by
    norm_num
  have hfl : ⌊((9007199254740991 : Int) : ℚ) + 1 / 2⌋ = 9007199254740991 := by
    rw [Int.floor_eq_iff]; norm_num
  have hr : roundHalfEven (((9007199254740991 : Int) : ℚ) + 1 / 2) = 9007199254740992 := by
    unfold roundHalfEven
    rw [hfl]
    norm_num
  unfold f64Round
  rw [if_neg (by norm_num), he, hy, hr]
  norm_num

theorem calculateDamage_val (attacker : Pokemon) (move : Move) (defender : Pokemon)
    (raw : Nat → Nat) (k : Nat) (b : Int) (m : ℚ)
    (hb : baseDamage move.Power (attackStat attacker move) (defenseStat move defender) = some b)
    (hm : calculateModifier attacker move defender raw k = (m, k + 2)) :
    calculateDamage attacker move defender raw k
      = some (f64ToInt (f64Mul (f64OfInt b) m), k + 2) := by
  unfold calculateDamage
  simp only [hb, hm]

/-- Base damage 35 on a critical hit with the lowest variance: `35 * 1.7` is
59.5 in `float64`, the damage is 59. -/
theorem damage_35_rawZero :
    f64ToInt (f64Mul (f64OfInt 35) (7656119366529843 / 4503599627370496)) = 59 := by
  have h1 : f64Round ((35 : Int) : ℚ) = 35 := by
    apply f64Round_pos_val _ _ (-47) 4925812092436480 <;> norm_num
  have h2 : f64Round (35 * (7656119366529843 / 4503599627370496)) = 119 / 2 := by
    apply f64Round_pos_val _ _ (-47) 8373880557142016 <;> norm_num
  unfold f64Mul f64OfInt
  rw [h1, h2, f64ToInt_val (119 / 2) 119 2 (by norm_num) (by norm_num)]
  decide

/-- Base damage 120 with variance roll 0.5: `120 * 0.925` is just below 111
in `float64`, the damage is 110. -/
theorem damage_120_rawHalf :
    f64ToInt (f64Mul (f64OfInt 120) (8331659310635417 / 9007199254740992)) = 110 := by
  have h1 : f64Round ((120 : Int) : ℚ) = 120 := by
    apply f64Round_pos_val _ _ (-46) 8444249301319680 <;> norm_num
  have h2 : f64Round (120 * (8331659310635417 / 9007199254740992))
      = 7810930603720703 / 70368744177664 := by
    apply f64Round_pos_val _ _ (-46) 7810930603720703 <;> norm_num
  unfold f64Mul f64OfInt
  rw [h1, h2, f64ToInt_val (7810930603720703 / 70368744177664) 7810930603720703 70368744177664
    (by norm_num) (by norm_num)]
  decide

/-- The wrapped base damage `-1844674407370953` with variance roll 0.5. -/
theorem damage_wrapped_rawHalf :
    f64ToInt (f64Mul (f64OfInt (-1844674407370953)) (8331659310635417 / 9007199254740992))
      = -1706323826818131 := by
  have h1 : f64Round ((-1844674407370953 : Int) : ℚ) = -1844674407370953 := by
    apply f64Round_neg_val _ _ (-2) (-7378697629483812) <;> norm_num
  have h2 : f64Round (-1844674407370953 * (8331659310635417 / 9007199254740992))
      = -3412647653636263 / 2 := by
    apply f64Round_neg_val _ _ (-2) (-6825295307272526) <;> norm_num
  unfold f64Mul f64OfInt
  rw [h1, h2, f64ToInt_val (-3412647653636263 / 2) (-3412647653636263) 2
    (by norm_num) (by norm_num)]
  decide

theorem typeEffectiveness_thirteen :
    typeEffectiveness "normal" (List.replicate 13 weakType) = 8192 := by
  have hnd : ∀ t ∈ List.replicate 13 weakType, relationsNodup t := by decide
  unfold typeEffectiveness
  rw [effectivenessLoop_eq_prod _ _ hnd, one_mul, effectivenessProduct_eq_pow]
  have c1 : (List.replicate 13 weakType).countP
      (fun t => decide ("normal" ∈ t.NoDamageFrom)) = 0 := by decide
  have c2 : (List.replicate 13 weakType).countP
      (fun t => decide ("normal" ∈ t.HalfDamageFrom)) = 0 := by decide
  have c3 : (List.replicate 13 weakType).countP
      (fun t => decide ("normal" ∈ t.DoubleDamageFrom)) = 13 := by decide
  rw [c1, c2, c3]
  norm_num

/-- Base damage `1210567579837191` against thirteen types that take double
damage, on a critical hit: the product is above `2^63` and the conversion to
`int` is out of range. -/
theorem damage_out_of_range :
    f64ToInt (f64Mul (f64OfInt 1210567579837191)
      (f64Mul (f64Mul (f64Mul 1 8192) 2) (7656119366529843 / 9007199254740992)))
      = -9223372036854775808 := by
  have h1 : f64Round (1 * 8192) = 8192 := by
    apply f64Round_pos_val _ _ (-39) 4503599627370496 <;> norm_num
  have h2 : f64Round (8192 * 2) = 16384 := by
    apply f64Round_pos_val _ _ (-38) 4503599627370496 <;> norm_num
  have h3 : f64Round (16384 * (7656119366529843 / 9007199254740992))
      = 7656119366529843 / 549755813888 := by
    apply f64Round_pos_val _ _ (-39) 7656119366529843 <;> norm_num
  have h4 : f64Round ((1210567579837191 : Int) : ℚ) = 1210567579837191 := by
    apply f64Round_pos_val _ _ (-2) 4842270319348764 <;> norm_num
  have h5 : f64Round (1210567579837191 * (7656119366529843 / 549755813888))
      = 16858848343844657152 := by
    apply f64Round_pos_val _ _ 11 8231859542892899 <;> norm_num
  unfold f64Mul f64OfInt
  rw [h1, h2, h3, h4, h5, f64ToInt_val 16858848343844657152 16858848343844657152 1
    (by norm_num) (by norm_num)]
  decide

/-- A sample turn: the only move, of power 40 and type "normal", is used by an
attacker with attack 100 on a defender with defense 100, neither with types,
on a critical hit with the lowest variance; the damage is 59. -/
theorem sample_Attack (p e : Pokemon) (k : Nat) (m : Move) (hm : p.Moves = [m]) (hpp : 0 < m.Pp)
    (hpow : m.Power = 40) (hty : m.MoveType = "normal") (hp : p.Types = []) (he : e.Types = [])
    (hatk : p.Stats "attack" = 100) (hdef : e.Stats "defense" = 100) :
    Attack p e rawZero k = some (usePp p 0 m, takeDamage e 59, k + 3) := by
  have hsel : selectLoop p.Moves rawZero 0 k = Selection.chosen 0 (k + 1) := by
    rw [selectLoop, hm]
    simp [randIntn, rawZero, hpp]
  have hspecial : ¬ m.MoveType = "special" := by rw [hty]; decide
  have hbase : baseDamage 40 100 100 = some 35 := by decide
  have hdmg : calculateDamage (usePp p 0 m) { m with Pp := m.Pp - 1 } e rawZero (k + 1)
      = some (59, k + 3) := by
    rw [calculateDamage_val _ _ _ _ _ 35 _ _ (modifier_rawZero _ _ _ _ (by exact hp) he),
      damage_35_rawZero]
    simp only [attackStat, defenseStat, if_neg hspecial, hpow]
    have ha : (usePp p 0 m).Stats "attack" = 100 := hatk
    rw [ha, hdef, hbase]
  unfold Attack
  rw [hsel]
  simp only [hm, List.getElem?_cons_zero, hdmg]
  rfl

/-! ## Damage: the claims -/

/-- C6 (as stated, refuted): three valid triples on which the claim fails.
With power `2^31` and attack `2^31` against defense 100 the product
`42 * power * attack` wraps around and `calculateDamage` returns a negative
number. With power `2^28` and attack `2^29` (no wrap-around) against thirteen
types that take double damage, `base * modifier` is above `2^63` and the
conversion to `int` returns `-2^63`. And a damage of 59 taken by a defender
whose hp is `-2^63` wraps the hp around to `2^63 - 59`: the hp increases. -/
theorem calculateDamage_nonneg_refuted :
    calculateDamage (combatant 2147483648 100 100 [] [heavyMove]) heavyMove
        (combatant 100 100 100 [] []) rawHalf 0 = some (-1706323826818131, 2) ∧
    calculateDamage (combatant 536870912 100 100 [] [bigMove]) bigMove
        (combatant 100 100 100 (List.replicate 13 weakType) []) rawZero 0
      = some (-9223372036854775808, 2) ∧
    (Attack (fighter [tackle]) (combatant 100 100 (-9223372036854775808) [] []) rawZero 0).map
        (fun r => r.2.1.Stats "hp") = some 9223372036854775749 := by
  refine ⟨?_, ?_, ?_⟩
  · have hb : baseDamage heavyMove.Power
        (attackStat (combatant 2147483648 100 100 [] [heavyMove]) heavyMove)
        (defenseStat heavyMove (combatant 100 100 100 [] [])) = some (-1844674407370953) := by
      decide
    rw [calculateDamage_val _ _ _ _ _ _ _ hb (modifier_rawHalf _ _ _ _ rfl rfl),
      damage_wrapped_rawHalf]
  · have hb : baseDamage bigMove.Power
        (attackStat (combatant 536870912 100 100 [] [bigMove]) bigMove)
        (defenseStat bigMove (combatant 100 100 100 (List.replicate 13 weakType) []))
        = some 1210567579837191 := by
      decide
    have hc : (0 : ℚ) < critChance := by rw [critChance_val]; norm_num
    have hm : calculateModifier (combatant 536870912 100 100 [] [bigMove]) bigMove
        (combatant 100 100 100 (List.replicate 13 weakType) []) rawZero 0
        = (f64Mul (f64Mul (f64Mul 1 8192) 2) (7656119366529843 / 9007199254740992), 0 + 2) := by
      rw [calculateModifier_no_types _ _ _ _ _ rfl, randFloat64_rawZero, if_pos hc,
        varianceRoll_rawZero]
      have : typeEffectiveness bigMove.MoveType
          (combatant 100 100 100 (List.replicate 13 weakType) []).Types = 8192 :=
        typeEffectiveness_thirteen
      rw [this]
    rw [calculateDamage_val _ _ _ _ _ _ _ hb hm, damage_out_of_range]
  · rw [sample_Attack (fighter [tackle]) (combatant 100 100 (-9223372036854775808) [] []) 0 tackle
      rfl (by decide) rfl rfl rfl rfl rfl rfl]
    simp only [Option.map_some', takeDamage_hp]
    decide

/-- C6 (amended): for every attacker, move and defender with power `≥ 0`,
attack stat `≥ 0`, defense stat `> 0`, no 64-bit overflow in the base damage
(`42 * power * attack < 2^63`) and a defender of at most two types whose
relation lists hold no name twice, and for every random source (every
critical-hit roll and variance roll), `calculateDamage` returns an integer
`≥ 0`; and whenever the defender's hp is in `[0, 2^63)`, what a returning
call of `Attack` subtracts from it is `≥ 0`, so the hp does not increase. -/
theorem calculateDamage_nonneg (attacker : Pokemon) (move : Move) (defender : Pokemon)
    (raw : Nat → Nat) (k : Nat) (hp : 0 ≤ move.Power) (ha : 0 ≤ attackStat attacker move)
    (hd : 0 < defenseStat move defender)
    (hov : 42 * move.Power * attackStat attacker move < 9223372036854775808)
    (hlen : defender.Types.length ≤ 2) (hnd : ∀ t ∈ defender.Types, relationsNodup t) :
    (∃ damage, calculateDamage attacker move defender raw k = some (damage, k + 2) ∧ 0 ≤ damage) ∧
    (∀ k0 p1 e1 k1, 0 ≤ defender.Stats "hp" → defender.Stats "hp" < 9223372036854775808 →
      Attack attacker defender raw k0 = some (p1, e1, k1) →
      ∃ damage, 0 ≤ damage ∧ e1.Stats "hp" = defender.Stats "hp" - damage ∧
        e1.Stats "hp" ≤ defender.Stats "hp") := by
  constructor
  · have hb := baseDamage_eq move.Power _ _ hp ha hd hov
    have hnum : (0 : Int) ≤ 42 * move.Power * attackStat attacker move := by positivity
    have hq0 : (0 : Int) ≤ 42 * move.Power * attackStat attacker move
        / (50 * defenseStat move defender) := Int.ediv_nonneg hnum (by omega)
    have hq1 : 42 * move.Power * attackStat attacker move / (50 * defenseStat move defender) + 2
        ≤ 288230376151711744 := by
      have h1 := ediv_ediv_fifty _ _ hnum hd
      have h2 : 42 * move.Power * attackStat attacker move / defenseStat move defender
          ≤ 42 * move.Power * attackStat attacker move := Int.ediv_le_self _ hnum
      omega
    generalize 42 * move.Power * attackStat attacker move / (50 * defenseStat move defender) + 2
      = b at hb hq1
    have hb0 : (0 : Int) ≤ b := by
      have := baseDamage_eq move.Power _ _ hp ha hd hov
      rw [hb] at this
      simp only [Option.some.injEq] at this
      omega
    obtain ⟨m0, m1⟩ := calculateModifier_bounds attacker move defender raw k
      (typeEffectiveness_le_four _ _ hlen hnd)
    have f0 : 0 ≤ f64OfInt b := f64Round_nonneg _ (by exact_mod_cast hb0)
    have f1 : f64OfInt b ≤ 288230376151711744 :=
      f64Round_le_of _ 288230376151711744 1 58 (by decide) (by decide) (by norm_num)
        (by exact_mod_cast hq1)
    have p0 : 0 ≤ f64Mul (f64OfInt b) (calculateModifier attacker move defender raw k).1 :=
      f64Round_nonneg _ (mul_nonneg f0 m0)
    have p1 : f64Mul (f64OfInt b) (calculateModifier attacker move defender raw k).1
        ≤ 6917529027641081856 :=
      f64Round_le_of _ 6917529027641081856 3 61 (by decide) (by decide) (by norm_num)
        (by nlinarith)
    refine ⟨_, calculateDamage_val _ _ _ _ _ b _ hb rfl, ?_⟩
    exact (f64ToInt_of_nonneg _ p0 (by linarith)).2
  · intro k0 p1 e1 k1 hhp0 hhp1 h
    rcases Attack_cases attacker defender raw k0 with
      h0 | ⟨k2, h1⟩ | ⟨_, _, damage, k2, _, _, ⟨hd0, hd1⟩, h2⟩
    · rw [h0] at h
      cases h
    · rw [h1] at h
      cases h
      exact ⟨0, le_refl 0, by omega, le_refl _⟩
    · rw [h2] at h
      cases h
      have hsub : goSub (defender.Stats "hp") damage = defender.Stats "hp" - damage :=
        wrap64_eq_self _ (by omega) (by omega)
      refine ⟨damage, hd0, by rw [takeDamage_hp, hsub], ?_⟩
      rw [takeDamage_hp, hsub]
      omega

/-- Witness of `calculateDamage_nonneg`: a zero-power move between two sample
combatants. -/
theorem calculateDamage_nonneg_witness :
    ∃ damage, calculateDamage (fighter [tackle]) ⟨"splash", 100, 0, 40, "normal"⟩ (fighter [tackle])
      (fun n => n) 0 = some (damage, 0 + 2) ∧ 0 ≤ damage :=
  (calculateDamage_nonneg (fighter [tackle]) ⟨"splash", 100, 0, 40, "normal"⟩ (fighter [tackle])
    (fun n => n) 0 (by decide) (by decide) (by decide) (by decide) (by decide) (by decide)).1

theorem floor_div_div_fifty (x d : Int) (hd : 0 < d) :
    ⌊(x : ℚ) / (d : ℚ) / 50⌋ = x / (50 * d) ∧ ⌊(x : ℚ) / (50 * (d : ℚ))⌋ = x / (50 * d) := by
  lift d to ℕ using hd.le
  have h1 : (x : ℚ) / ((d : ℤ) : ℚ) / 50 = (x : ℚ) / ((50 * d : ℕ) : ℚ) := by
    push_cast
    rw [div_div, mul_comm]
  have h2 : (x : ℚ) / (50 * ((d : ℤ) : ℚ)) = (x : ℚ) / ((50 * d : ℕ) : ℚ) := by
    push_cast
    rfl
  rw [h1, h2, Rat.floor_intCast_div_natCast]
  push_cast
  exact ⟨rfl, rfl⟩

/-- C9 (as stated, refuted): with power `2^31`, attack `2^31` and defense 100
the product `42 * power * attack` wraps around: the base damage of the code is
`-1844674407370953`, the formula gives `38738162554790060`. -/
theorem calculateDamage_base_formula_refuted :
    baseDamage 2147483648 2147483648 100 = some (-1844674407370953) ∧
    ⌊(42 * ((2147483648 : Int) : ℚ) * ((2147483648 : Int) : ℚ)) / (50 * ((100 : Int) : ℚ))⌋ + 2
      = 38738162554790060 ∧
    baseDamage 2147483648 2147483648 100
      ≠ some (⌊(42 * ((2147483648 : Int) : ℚ) * ((2147483648 : Int) : ℚ))
          / (50 * ((100 : Int) : ℚ))⌋ + 2) := by
  have hv : ⌊(42 * ((2147483648 : Int) : ℚ) * ((2147483648 : Int) : ℚ)) / (50 * ((100 : Int) : ℚ))⌋
      = 38738162554790058 := by
    rw [Int.floor_eq_iff]; norm_num
  have hb : baseDamage 2147483648 2147483648 100 = some (-1844674407370953) := by decide
  rw [hv, hb]
  decide

/-- C9 (amended): for power `≥ 0`, attack `≥ 0` and defense `> 0` with
`42 * power * attack < 2^63` (no 64-bit overflow) the base damage that
`calculateDamage` computes with truncating integer divisions is the formula
`floor((floor(2*100/5) + 2) * power * attack / defense / 50) + 2` evaluated
exactly, which is `floor(42 * power * attack / (50 * defense)) + 2`; the
result of `calculateDamage` is that base, as a `float64`, times the modifier,
converted to `int`; and attack and defense are the special stats when the
move's type is the literal "special" and the physical stats otherwise. -/
theorem calculateDamage_base_formula (attacker : Pokemon) (move : Move) (defender : Pokemon)
    (raw : Nat → Nat) (k : Nat) (hp : 0 ≤ move.Power) (ha : 0 ≤ attackStat attacker move)
    (hd : 0 < defenseStat move defender)
    (hov : 42 * move.Power * attackStat attacker move < 9223372036854775808) :
    baseDamage move.Power (attackStat attacker move) (defenseStat move defender)
      = some (⌊(((⌊((2 : ℚ) * 100) / 5⌋ : Int) : ℚ) + 2) * (move.Power : ℚ)
            * (attackStat attacker move : ℚ) / (defenseStat move defender : ℚ) / 50⌋ + 2) ∧
    ⌊(((⌊((2 : ℚ) * 100) / 5⌋ : Int) : ℚ) + 2) * (move.Power : ℚ)
        * (attackStat attacker move : ℚ) / (defenseStat move defender : ℚ) / 50⌋ + 2
      = ⌊(42 * (move.Power : ℚ) * (attackStat attacker move : ℚ))
          / (50 * (defenseStat move defender : ℚ))⌋ + 2 ∧
    calculateDamage attacker move defender raw k
      = some (f64ToInt (f64Mul (f64OfInt (⌊(42 * (move.Power : ℚ) * (attackStat attacker move : ℚ))
            / (50 * (defenseStat move defender : ℚ))⌋ + 2))
          (calculateModifier attacker move defender raw k).1), k + 2) ∧
    attackStat attacker move
      = (if move.MoveType = "special" then attacker.Stats "special-attack"
         else attacker.Stats "attack") ∧
    defenseStat move defender
      = (if move.MoveType = "special" then defender.Stats "special-defense"
         else defender.Stats "defense") := by
  have hfl : ⌊((2 : ℚ) * 100) / 5⌋ = 40 := by
    rw [Int.floor_eq_iff]; norm_num
  have hb := baseDamage_eq move.Power _ _ hp ha hd hov
  obtain ⟨f1, f2⟩ := floor_div_div_fifty (42 * move.Power * attackStat attacker move) _ hd
  have e1 : (((40 : Int) : ℚ) + 2) * (move.Power : ℚ) * (attackStat attacker move : ℚ)
      = ((42 * move.Power * attackStat attacker move : Int) : ℚ) := by
    push_cast; ring
  have e2 : 42 * (move.Power : ℚ) * (attackStat attacker move : ℚ)
      = ((42 * move.Power * attackStat attacker move : Int) : ℚ) := by
    push_cast; ring
  rw [hfl, e1, e2, f1, f2]
  exact ⟨hb, rfl, calculateDamage_val _ _ _ _ _ _ _ hb rfl, rfl, rfl⟩

/-- Witness of `calculateDamage_base_formula`: power 141, attack 100, defense
100 give base damage `floor(42 * 141 * 100 / (50 * 100)) + 2 = 120`, and with
both rolls 0.5 the damage is 110. -/
theorem calculateDamage_base_formula_witness :
    baseDamage move141.Power (attackStat (combatant 100 100 100 [] [move141]) move141)
        (defenseStat move141 (combatant 100 100 100 [] [])) = some 120 ∧
    calculateDamage (combatant 100 100 100 [] [move141]) move141 (combatant 100 100 100 [] [])
        rawHalf 0 = some (110, 0 + 2) := by
  have h := calculateDamage_base_formula (combatant 100 100 100 [] [move141]) move141
    (combatant 100 100 100 [] []) rawHalf 0 (by decide) (by decide) (by decide) (by decide)
  have hb : baseDamage move141.Power (attackStat (combatant 100 100 100 [] [move141]) move141)
      (defenseStat move141 (combatant 100 100 100 [] [])) = some 120 := by decide
  refine ⟨hb, ?_⟩
  have hfl : ⌊(42 * ((move141.Power : Int) : ℚ)
      * ((attackStat (combatant 100 100 100 [] [move141]) move141 : Int) : ℚ))
      / (50 * ((defenseStat move141 (combatant 100 100 100 [] []) : Int) : ℚ))⌋ + 2 = 120 := by
    have := h.1
    rw [hb, h.2.1] at this
    simp only [Option.some.injEq] at this
    exact this.symm
  rw [h.2.2.1, hfl, modifier_rawHalf _ _ _ _ rfl rfl, damage_120_rawHalf]

/-! ## The battle loop: theorems -/

theorem Attack_frame (p enemy : Pokemon) (raw : Nat → Nat) (k : Nat) (p1 e1 : Pokemon) (k1 : Nat)
    (h : Attack p enemy raw k = some (p1, e1, k1)) : attackFrame p enemy p1 e1 := by
  rcases Attack_cases p enemy raw k with h0 | ⟨k2, h1⟩ | ⟨idx, move, damage, k2, hm, hpos, _, h2⟩
  · rw [h0] at h
    cases h
  · rw [h1] at h
    cases h
    exact ⟨rfl, rfl, rfl, rfl, Or.inl rfl, rfl, rfl, rfl, rfl, fun _ _ => rfl⟩
  · rw [h2] at h
    cases h
    refine ⟨rfl, rfl, rfl, rfl, Or.inr ⟨idx, move, hm, hpos, rfl⟩, rfl, rfl, rfl, rfl,
      fun s hs => ?_⟩
    simp [takeDamage, hs]

/-- Invariant of the loop head: pokemon2 is alive. -/
theorem battleLoop_from_head (raw : Nat → Nat) :
    ∀ (fuel : Nat) (p1 p2 : Pokemon) (k : Nat), 0 < p2.Stats "hp" →
      (∀ t ∈ (battleLoop raw fuel p1 p2 k).turns,
        (∃ k0 k1, Attack t.attackerBefore t.defenderBefore raw k0
          = some (t.attackerAfter, t.defenderAfter, k1)) ∧
        0 < t.attackerBefore.Stats "hp" ∧
        attackFrame t.attackerBefore t.defenderBefore t.attackerAfter t.defenderAfter) ∧
      alternates p1 p2 true (battleLoop raw fuel p1 p2 k).turns ∧
      ((battleLoop raw fuel p1 p2 k).status = BattleStatus.exited →
        (0 < (battleLoop raw fuel p1 p2 k).pokemon1.Stats "hp" ∧
          (battleLoop raw fuel p1 p2 k).pokemon2.Stats "hp" ≤ 0 ∧
          announcedWinner (battleLoop raw fuel p1 p2 k).pokemon1
            (battleLoop raw fuel p1 p2 k).pokemon2 = 1) ∨
        ((battleLoop raw fuel p1 p2 k).pokemon1.Stats "hp" ≤ 0 ∧
          0 < (battleLoop raw fuel p1 p2 k).pokemon2.Stats "hp" ∧
          announcedWinner (battleLoop raw fuel p1 p2 k).pokemon1
            (battleLoop raw fuel p1 p2 k).pokemon2 = 2)) := by
  intro fuel
  induction fuel with
  | zero =>
    intro p1 p2 k h2
    refine ⟨fun t ht => ?_, trivial, fun hs => ?_⟩
    · simp [battleLoop] at ht
    · simp [battleLoop] at hs
  | succ fuel ih =>
    intro p1 p2 k h2
    rw [battleLoop]
    split
    · next hcond =>
      cases hA : Attack p1 p2 raw k with
      | none =>
        refine ⟨fun t ht => ?_, trivial, fun hs => ?_⟩
        · simp at ht
        · simp at hs
      | some r =>
        obtain ⟨a1, d2, k1⟩ := r
        have hf1 := Attack_frame p1 p2 raw k a1 d2 k1 hA
        have ha1 : 0 < a1.Stats "hp" := by rw [hf1.1]; exact hcond.1
        have ht1 : (∃ k0 k1', Attack p1 p2 raw k0 = some (a1, d2, k1')) ∧
            0 < p1.Stats "hp" ∧ attackFrame p1 p2 a1 d2 := ⟨⟨k, k1, hA⟩, hcond.1, hf1⟩
        dsimp only
        split
        · next hdead =>
          refine ⟨fun t ht => ?_, ⟨rfl, rfl, rfl, trivial⟩, fun _ => Or.inl ⟨ha1, hdead, ?_⟩⟩
          · simp only [List.mem_singleton] at ht
            subst ht
            exact ht1
          · simp [announcedWinner, ha1]
        · next halive =>
          have hd2 : 0 < d2.Stats "hp" := by omega
          cases hB : Attack d2 a1 raw k1 with
          | none =>
            refine ⟨fun t ht => ?_, ⟨rfl, rfl, rfl, trivial⟩, fun hs => ?_⟩
            · simp only [List.mem_singleton] at ht
              subst ht
              exact ht1
            · simp at hs
          | some r2 =>
            obtain ⟨a2, d1, k2⟩ := r2
            have hf2 := Attack_frame d2 a1 raw k1 a2 d1 k2 hB
            have ha2 : 0 < a2.Stats "hp" := by rw [hf2.1]; exact hd2
            obtain ⟨ihT, ihA, ihE⟩ := ih d1 a2 k2 ha2
            refine ⟨fun t ht => ?_, ⟨rfl, rfl, rfl, rfl, rfl, rfl, ihA⟩, ihE⟩
            simp only [List.mem_cons] at ht
            rcases ht with ht | ht | ht
            · subst ht
              exact ht1
            · subst ht
              exact ⟨⟨k1, k2, hB⟩, hd2, hf2⟩
            · exact ihT t ht
    · next hcond =>
      have hp1 : p1.Stats "hp" ≤ 0 := by
        by_contra hc
        exact hcond ⟨by omega, h2⟩
      refine ⟨fun t ht => ?_, trivial, fun _ => Or.inr ⟨hp1, h2, ?_⟩⟩
      · simp at ht
      · simp [announcedWinner, hp1]

/-- A sample battle: two equal combatants, every random outcome 0. The loop
exits in its second iteration, after three turns, with pokemon2 defeated. -/
theorem battleLoop_sample_run :
    (battleLoop rawZero 2 (fighter [tackle]) (fighter [tackle]) 0).status
      = BattleStatus.exited ∧
    (battleLoop rawZero 2 (fighter [tackle]) (fighter [tackle]) 0).pokemon1.Stats "hp" = 41 ∧
    (battleLoop rawZero 2 (fighter [tackle]) (fighter [tackle]) 0).pokemon2.Stats "hp" = -18 ∧
    (battleLoop rawZero 2 (fighter [tackle]) (fighter [tackle]) 0).turns.length = 3 ∧
    (battleLoop rawZero 2 (fighter [tackle]) (fighter [tackle]) 0).cursor = 9 := by
  have hA1 := sample_Attack (fighter [tackle]) (fighter [tackle]) 0 tackle rfl (by decide) rfl rfl
    rfl rfl rfl rfl
  have hA2 := sample_Attack (takeDamage (fighter [tackle]) 59) (usePp (fighter [tackle]) 0 tackle)
    3 tackle rfl (by decide) rfl rfl rfl rfl (by simp [takeDamage, fighter, sampleStats]) rfl
  have hA3 := sample_Attack (takeDamage (usePp (fighter [tackle]) 0 tackle) 59)
    (usePp (takeDamage (fighter [tackle]) 59) 0 tackle) 6 { tackle with Pp := tackle.Pp - 1 }
    rfl (by decide) rfl rfl rfl rfl (by simp [takeDamage, usePp, fighter, sampleStats]) rfl
  have e1 : (fighter [tackle]).Stats "hp" = 100 := rfl
  have e2 : (takeDamage (fighter [tackle]) 59).Stats "hp" = 41 := by
    rw [takeDamage_hp, e1]; decide
  have e3 : (takeDamage (usePp (fighter [tackle]) 0 tackle) 59).Stats "hp" = 41 := by
    rw [takeDamage_hp]; decide
  have e4 : (usePp (takeDamage (fighter [tackle]) 59) 0 tackle).Stats "hp" = 41 := e2
  have e5 : (takeDamage (usePp (takeDamage (fighter [tackle]) 59) 0 tackle) 59).Stats "hp" = -18 := by
    rw [takeDamage_hp, e4]; decide
  have e6 : (usePp (takeDamage (usePp (fighter [tackle]) 0 tackle) 59) 0
      { tackle with Pp := tackle.Pp - 1 }).Stats "hp" = 41 := e3
  simp only [battleLoop, hA1, hA2, hA3, e1, e2, e3, e4, e5, e6]
  simp
  exact ⟨e3, e5⟩

/-- Started with both combatants alive, the loop does not exit before a turn
is made. -/
theorem battleLoop_exit_after_turn (raw : Nat → Nat) (fuel : Nat) (p1 p2 : Pokemon) (k : Nat)
    (h1 : 0 < p1.Stats "hp") (h2 : 0 < p2.Stats "hp") :
    (battleLoop raw fuel p1 p2 k).status = BattleStatus.exited →
      (battleLoop raw fuel p1 p2 k).turns ≠ [] := by
  cases fuel with
  | zero => intro hs; simp [battleLoop] at hs
  | succ fuel =>
    rw [battleLoop, if_pos ⟨h1, h2⟩]
    cases Attack p1 p2 raw k with
    | none => intro hs; simp at hs
    | some r =>
      obtain ⟨a1, d2, k1⟩ := r
      dsimp only
      split
      · intro _; simp
      · cases Attack d2 a1 raw k1 with
        | none => intro hs; simp at hs
        | some r2 => intro _; simp

/-- C10 (as stated, refuted): the first attack of the sample battle, made by a
combatant with hp 100 on one with hp 100, changes more than the opponent's hp:
the `Pp` of the attacker's move drops from 35 to 34. -/
theorem Attack_changes_attacker_pp :
    (fighter [tackle]).Stats "hp" = 100 ∧
    (fighter [tackle]).Moves.map (fun m => m.Pp) = [35] ∧
    (Attack (fighter [tackle]) (fighter [tackle]) rawZero 0).map
        (fun r => r.1.Moves.map (fun m => m.Pp)) = some [34] ∧
    (Attack (fighter [tackle]) (fighter [tackle]) rawZero 0).map (fun r => r.1.Moves)
      ≠ some (fighter [tackle]).Moves := by
  have hA := sample_Attack (fighter [tackle]) (fighter [tackle]) 0 tackle rfl (by decide) rfl rfl
    rfl rfl rfl rfl
  rw [hA]
  decide

/-- C10 (amended): starting the battle loop of `main` with two combatants that
both have hp `> 0`, after any number of iterations: every turn made is a call
of `Attack` by a combatant whose hp is `> 0`; the call changes nothing but the
opponent's hp and the `Pp` of at most one move of the attacker, which was
`> 0` and drops by 1 (the attacker keeps its stats, hence its hp); the turns
alternate strictly, pokemon1 first; and when the loop has exited, exactly one
combatant has hp `≤ 0`, the announced winner is the other, and at least one
turn was made. -/
theorem battleLoop_no_draw (raw : Nat → Nat) (fuel : Nat) (p1 p2 : Pokemon) (k : Nat)
    (h1 : 0 < p1.Stats "hp") (h2 : 0 < p2.Stats "hp") :
    (∀ t ∈ (battleLoop raw fuel p1 p2 k).turns,
      (∃ k0 k1, Attack t.attackerBefore t.defenderBefore raw k0
        = some (t.attackerAfter, t.defenderAfter, k1)) ∧
      0 < t.attackerBefore.Stats "hp" ∧
      attackFrame t.attackerBefore t.defenderBefore t.attackerAfter t.defenderAfter) ∧
    alternates p1 p2 true (battleLoop raw fuel p1 p2 k).turns ∧
    ((battleLoop raw fuel p1 p2 k).status = BattleStatus.exited →
      (0 < (battleLoop raw fuel p1 p2 k).pokemon1.Stats "hp" ∧
        (battleLoop raw fuel p1 p2 k).pokemon2.Stats "hp" ≤ 0 ∧
        announcedWinner (battleLoop raw fuel p1 p2 k).pokemon1
          (battleLoop raw fuel p1 p2 k).pokemon2 = 1) ∨
      ((battleLoop raw fuel p1 p2 k).pokemon1.Stats "hp" ≤ 0 ∧
        0 < (battleLoop raw fuel p1 p2 k).pokemon2.Stats "hp" ∧
        announcedWinner (battleLoop raw fuel p1 p2 k).pokemon1
          (battleLoop raw fuel p1 p2 k).pokemon2 = 2)) ∧
    ((battleLoop raw fuel p1 p2 k).status = BattleStatus.exited →
      (battleLoop raw fuel p1 p2 k).turns ≠ []) :=
  ⟨(battleLoop_from_head raw fuel p1 p2 k h2).1, (battleLoop_from_head raw fuel p1 p2 k h2).2.1,
   (battleLoop_from_head raw fuel p1 p2 k h2).2.2, battleLoop_exit_after_turn raw fuel p1 p2 k h1 h2⟩

/-- Witness of `battleLoop_no_draw`: the sample battle exits and pokemon1 is
announced as the winner. -/
theorem battleLoop_no_draw_witness :
    (battleLoop rawZero 2 (fighter [tackle]) (fighter [tackle]) 0).status
      = BattleStatus.exited ∧
    announcedWinner (battleLoop rawZero 2 (fighter [tackle]) (fighter [tackle]) 0).pokemon1
      (battleLoop rawZero 2 (fighter [tackle]) (fighter [tackle]) 0).pokemon2 = 1 := by
  have h := (battleLoop_no_draw rawZero 2 (fighter [tackle]) (fighter [tackle]) 0
    (by decide) (by decide)).2.2.1 battleLoop_sample_run.1
  refine ⟨battleLoop_sample_run.1, ?_⟩
  rcases h with h | h
  · exact h.2.2
  · have := battleLoop_sample_run.2.1
    omega

end PokemonBattle
